import Mathlib

/-!
# cef-quickstart: readiness machine and embedded resource serving

A shallow embedding of `src/app/loading_manager.cpp`, `src/app/resourceutil.cpp`
and `src/app/binaryresourceprovider.cpp`, followed by the properties proved
about it.

Conventions of the embedding:

* `std::string` is a list of characters, `std::vector<uint8_t>` a list of bytes;
* a `float` is `F32`: NaN, the two infinities, or a finite value given exactly
  as a rational (the sign of zero is not tracked, `-0.0f` and `0.0f` compare
  equal in C++ as well);
* every `std::atomic<T>` field is a plain field (one execution context);
* `Logger::LogMessage` only writes to the log and is left out;
* the calls made on the window (`CenterWindow`, `Show`) are recorded, oldest
  first, in the ghost field `calls`.
-/

namespace CefQuickstart

/-- The `std::string` of the source. -/
abbrev Str := List Char

/-- The `std::vector<uint8_t>` of the source. -/
abbrev Bytes := List (Fin 256)

/-! ## Single-precision values -/

/-- A `float`: not-a-number, an infinity, or a finite value. -/
inductive F32 where
  | nan
  | ninf
  | fin (q : ℚ)
  | pinf
  deriving DecidableEq

namespace F32

/-- The `operator<` of `float`: false as soon as one side is NaN. -/
def lt : F32 → F32 → Bool
  | nan, _ => false
  | _, nan => false
  | ninf, ninf => false
  | ninf, _ => true
  | fin _, ninf => false
  | fin a, fin b => decide (a < b)
  | fin _, pinf => true
  | pinf, _ => false

/-- The `std::min(a, b)` of the source: `(b < a) ? b : a`. -/
def stdMin (a b : F32) : F32 := if lt b a then b else a

/-- The `std::max(a, b)` of the source: `(a < b) ? b : a`. -/
def stdMax (a b : F32) : F32 := if lt a b then b else a

/-- The literal `0.0f`. -/
def lit0_0 : F32 := fin 0
/-- The literal `0.1f`, the single-precision value nearest to 0.1 (0x3DCCCCCD). -/
def lit0_1 : F32 := fin (13421773 / 134217728)
/-- The literal `0.3f` (0x3E99999A). -/
def lit0_3 : F32 := fin (5033165 / 16777216)
/-- The literal `0.5f`. -/
def lit0_5 : F32 := fin (1 / 2)
/-- The literal `0.8f` (0x3F4CCCCD). -/
def lit0_8 : F32 := fin (13421773 / 16777216)
/-- The literal `1.0f`. -/
def lit1_0 : F32 := fin 1

end F32

/-! ## The readiness machine (`loading_manager.hpp`, `loading_manager.cpp`) -/

/-- The `enum LoadingState` of `loading_manager.hpp`, in declaration order
(`INITIALIZING = 0` … `ERROR_STATE = 5`). -/
inductive LoadingState where
  | INITIALIZING
  | PRELOADING_RESOURCES
  | CREATING_WINDOW
  | LOADING_CONTENT
  | READY
  | ERROR_STATE
  deriving DecidableEq, Repr

/-- A `CefWindow` object, known by its identity. -/
abbrev CefWindow := Nat

/-- A call made on the window by the show sequence. -/
inductive WindowCall where
  | CenterWindow (w : CefWindow) (width height : Nat)
  | Show (w : CefWindow)
  deriving DecidableEq, Repr

/-- The fields of `class LoadingManager`, and the ghost record `calls` of the
calls made on the window so far. `current_state_` holds the enum value that the
source stores as `static_cast<int>(state)` and reads back with
`static_cast<LoadingState>`; `window_` is `none` for a null `CefRefPtr`. -/
structure LoadingManager where
  current_state_ : LoadingState
  progress_ : F32
  state_message_ : Str
  error_message_ : Str
  window_ : Option CefWindow
  content_loaded_ : Bool
  window_shown_ : Bool
  calls : List WindowCall

namespace LoadingManager

/-- The constructor `LoadingManager::LoadingManager()`; the strings and the
window pointer are default-constructed. -/
def init : LoadingManager :=
  { current_state_ := .INITIALIZING
    progress_ := F32.lit0_0
    state_message_ := []
    error_message_ := []
    window_ := none
    content_loaded_ := false
    window_shown_ := false
    calls := [] }

/-- Method `LoadingManager::GetState`. -/
def GetState (m : LoadingManager) : LoadingState := m.current_state_

/-- Method `LoadingManager::GetStateMessage`. -/
def GetStateMessage (m : LoadingManager) : Str := m.state_message_

/-- Method `LoadingManager::GetProgress`. -/
def GetProgress (m : LoadingManager) : F32 := m.progress_

/-- Method `LoadingManager::SetProgress`: the stored value is
`std::max(0.0f, std::min(1.0f, progress))`; what follows in the source only
decides whether to log. -/
def SetProgress (progress : F32) (m : LoadingManager) : LoadingManager :=
  { m with progress_ := F32.stdMax F32.lit0_0 (F32.stdMin F32.lit1_0 progress) }

/-- Method `LoadingManager::SetWindow`. -/
def SetWindow (window : Option CefWindow) (m : LoadingManager) : LoadingManager :=
  { m with window_ := window }

/-- Method `LoadingManager::ShowWindowWhenReady`:
`if (window_ && !window_shown_.load() && GetState() == READY)` centre the window
on 1200x800, show it and store `window_shown_ = true`. -/
def ShowWindowWhenReady (m : LoadingManager) : LoadingManager :=
  match m.window_ with
  | some w =>
    if !m.window_shown_ && decide (GetState m = .READY) then
      { m with
        calls := m.calls ++ [WindowCall.CenterWindow w 1200 800, WindowCall.Show w]
        window_shown_ := true }
    else m
  | none => m

/-- Method `LoadingManager::SetState`: store state and message, assign the progress of
the state in the `switch`, then
`if (state == READY && content_loaded_.load() && !window_shown_.load())` run the
show sequence. -/
def SetState (state : LoadingState) (message : Str) (m : LoadingManager) :
    LoadingManager :=
  let m1 := { m with current_state_ := state, state_message_ := message }
  let m2 :=
    match state with
    | .INITIALIZING => SetProgress F32.lit0_1 m1
    | .PRELOADING_RESOURCES => SetProgress F32.lit0_3 m1
    | .CREATING_WINDOW => SetProgress F32.lit0_5 m1
    | .LOADING_CONTENT => SetProgress F32.lit0_8 m1
    | .READY => SetProgress F32.lit1_0 m1
    | .ERROR_STATE => m1
  if decide (state = .READY) && m2.content_loaded_ && !m2.window_shown_ then
    ShowWindowWhenReady m2
  else m2

/-- Method `LoadingManager::OnContentLoaded`. -/
def OnContentLoaded (m : LoadingManager) : LoadingManager :=
  let m1 := { m with content_loaded_ := true }
  if decide (GetState m1 = .READY) && !m1.window_shown_ then
    ShowWindowWhenReady m1
  else m1

/-- Method `LoadingManager::SetError`. -/
def SetError (error : Str) (m : LoadingManager) : LoadingManager :=
  SetState .ERROR_STATE error { m with error_message_ := error }

/-- Method `LoadingManager::HasError`. -/
def HasError (m : LoadingManager) : Bool := decide (GetState m = .ERROR_STATE)

/-- Method `LoadingManager::GetError`. -/
def GetError (m : LoadingManager) : Str := m.error_message_

/-- Number of `Show` calls made on a window so far. -/
def showsExecuted (m : LoadingManager) : Nat :=
  (m.calls.filter fun c => match c with
    | .Show _ => true
    | .CenterWindow _ _ _ => false).length

end LoadingManager

/-- A call of one of the public mutating operations of `LoadingManager`. -/
inductive Op where
  | SetState (state : LoadingState) (message : Str)
  | SetProgress (progress : F32)
  | SetWindow (window : Option CefWindow)
  | ShowWindowWhenReady
  | OnContentLoaded
  | SetError (error : Str)
  deriving DecidableEq

/-- Effect of one call on the machine. -/
def step (op : Op) (m : LoadingManager) : LoadingManager :=
  match op with
  | .SetState s msg => m.SetState s msg
  | .SetProgress p => m.SetProgress p
  | .SetWindow w => m.SetWindow w
  | .ShowWindowWhenReady => m.ShowWindowWhenReady
  | .OnContentLoaded => m.OnContentLoaded
  | .SetError e => m.SetError e

/-- Effect of a sequence of calls, first call first. -/
def run (ops : List Op) (m : LoadingManager) : LoadingManager :=
  ops.foldl (fun s op => step op s) m

/-- The two calls of the show-once scenario: `SetState(READY, message)` and
`OnContentLoaded()`. -/
inductive ReadyCall where
  | setReady (message : Str)
  | contentLoaded
  deriving DecidableEq

/-- The operation a `ReadyCall` stands for. -/
def ReadyCall.toOp : ReadyCall → Op
  | .setReady msg => .SetState .READY msg
  | .contentLoaded => .OnContentLoaded

/-- Whether the call is `SetState(READY, _)`. -/
def ReadyCall.isReady : ReadyCall → Bool
  | .setReady _ => true
  | .contentLoaded => false

/-- Whether the call is `OnContentLoaded()`. -/
def ReadyCall.isContent : ReadyCall → Bool
  | .setReady _ => false
  | .contentLoaded => true

/-- Whether a `SetState(READY)` call occurs in the sequence. -/
def hasReady (cs : List ReadyCall) : Bool := cs.any ReadyCall.isReady

/-- Whether an `OnContentLoaded()` call occurs in the sequence. -/
def hasContent (cs : List ReadyCall) : Bool := cs.any ReadyCall.isContent

/-- Whether every `SetState` call of the sequence names `ERROR_STATE`. -/
def onlyErrorSetState (ops : List Op) : Bool :=
  ops.all fun op => match op with
    | .SetState s _ => decide (s = .ERROR_STATE)
    | _ => true

/-! ## The resource store (`resourceutil.hpp`, `resourceutil.cpp`) -/

/-- The `struct PreloadedResource`. -/
structure PreloadedResource where
  data : Bytes
  mimeType : Str
  loaded : Bool
  deriving DecidableEq

/-- The constructor `PreloadedResource() : loaded(false) {}`. -/
def PreloadedResource.new : PreloadedResource :=
  { data := [], mimeType := [], loaded := false }

/-- The `enum ResourceId` value `IDR_HTML_INDEX = 100`. -/
def IDR_HTML_INDEX : Int := 100

/-- The compiled-in document declared in `webapp.hpp`, a parameter of the
model: `html` is `none` when `GetWebAppHTML()` is a null pointer and otherwise
the `GetWebAppHTMLSize()` bytes it points to. -/
structure WebApp where
  html : Option Bytes
  deriving DecidableEq

/-- Function `GetWebAppHTML()` of `webapp.hpp`. -/
def GetWebAppHTML (app : WebApp) : Option Bytes := app.html

/-- Function `GetWebAppHTMLSize()` of `webapp.hpp`. -/
def GetWebAppHTMLSize (app : WebApp) : Nat :=
  match app.html with
  | some content => content.length
  | none => 0

/-- Ways in which a call does not return normally: `relock` is a
`std::lock_guard` taken on `g_resourceMutex` by the context that already holds
it (a `std::mutex` is not recursive, the call never returns), `out_of_range` is
the exception of `std::string::substr`. -/
inductive Fault where
  | relock
  | out_of_range
  deriving DecidableEq, Repr

/-- Equality of two call results can be decided. -/
instance decEqExcept {ε α : Type} [DecidableEq ε] [DecidableEq α] :
    DecidableEq (Except ε α)
  | .ok a, .ok b =>
    if h : a = b then isTrue (congrArg Except.ok h)
    else isFalse (fun h2 => h (Except.ok.inj h2))
  | .error a, .error b =>
    if h : a = b then isTrue (congrArg Except.error h)
    else isFalse (fun h2 => h (Except.error.inj h2))
  | .ok _, .error _ => isFalse (fun h => Except.noConfusion h)
  | .error _, .ok _ => isFalse (fun h => Except.noConfusion h)

/-- The three globals of `resourceutil.cpp`. The `std::map` is an association
list read with `List.lookup` and written with `mapAssign`; the mutex is `true`
while held. -/
structure Globals where
  g_preloadedResources : List (Str × PreloadedResource)
  g_resourceMutex : Bool
  g_resourcesInitialized : Bool
  deriving DecidableEq

/-- The globals at program start. -/
def Globals.init : Globals :=
  { g_preloadedResources := [], g_resourceMutex := false, g_resourcesInitialized := false }

/-- The assignment `m[k] = v` of a `std::map`: the entry of `k` is replaced, or
added when there is none. -/
def mapAssign {α : Type} (k : Str) (v : α) : List (Str × α) → List (Str × α)
  | [] => [(k, v)]
  | (k1, v1) :: rest =>
    if k1 = k then (k, v) :: rest else (k1, v1) :: mapAssign k v rest

/-- Entering `std::lock_guard<std::mutex> lock(g_resourceMutex)`. -/
def lockGuard (g : Globals) : Except Fault Globals :=
  if g.g_resourceMutex then .error .relock else .ok { g with g_resourceMutex := true }

/-- Leaving the scope of the `std::lock_guard`. -/
def unlockGuard (g : Globals) : Globals := { g with g_resourceMutex := false }

/-- The `::tolower` of the "C" locale. -/
def tolower (c : Char) : Char := c.toLower

/-- The lambda `ends_with` of `GetMimeType`:
`str.size() >= suffix.size() && str.compare(str.size() - suffix.size(), suffix.size(), suffix) == 0`. -/
def ends_with (str suffix : Str) : Bool :=
  decide (str.length ≥ suffix.length) &&
    decide ((str.drop (str.length - suffix.length)).take suffix.length = suffix)

/-- Function `ResourceUtil::GetMimeType`. -/
def GetMimeType (path : Str) : Str :=
  let lower_path := path.map tolower
  if ends_with lower_path ".html".toList || ends_with lower_path ".htm".toList then
    "text/html".toList
  else if ends_with lower_path ".css".toList then "text/css".toList
  else if ends_with lower_path ".js".toList then "application/javascript".toList
  else if ends_with lower_path ".json".toList then "application/json".toList
  else if ends_with lower_path ".png".toList then "image/png".toList
  else if ends_with lower_path ".jpg".toList || ends_with lower_path ".jpeg".toList then
    "image/jpeg".toList
  else if ends_with lower_path ".svg".toList then "image/svg+xml".toList
  else "application/octet-stream".toList

/-- The key `"/index.html"`. -/
def indexPath : Str := "/index.html".toList

/-- Function `ResourceUtil::InitializePreloadedResources`. -/
def InitializePreloadedResources (app : WebApp) (g : Globals) : Except Fault Globals := do
  let g1 ← lockGuard g
  if g1.g_resourcesInitialized then
    pure (unlockGuard g1)
  else
    let g2 :=
      match GetWebAppHTML app with
      | some html_content =>
        if GetWebAppHTMLSize app > 0 then
          { g1 with
            g_preloadedResources :=
              mapAssign indexPath
                { data := html_content, mimeType := GetMimeType indexPath, loaded := true }
                g1.g_preloadedResources }
        else g1
      | none => g1
    pure (unlockGuard { g2 with g_resourcesInitialized := true })

/-- The constant `resourceMap` of `resourceutil.cpp`. -/
def resourceMap : List (Str × Int) := [(indexPath, IDR_HTML_INDEX)]

/-- Function `ResourceUtil::GetResourceId`. -/
def GetResourceId (path : Str) : Int :=
  match resourceMap.lookup path with
  | some id => id
  | none => -1

/-- Function `ResourceUtil::LoadBinaryResource`; the test of `g_resourcesInitialized` is
made without the lock. -/
def LoadBinaryResource (app : WebApp) (resource_id : Int) (g : Globals) :
    Except Fault (Bytes × Globals) := do
  let g1 ← if !g.g_resourcesInitialized then InitializePreloadedResources app g else pure g
  if resource_id = IDR_HTML_INDEX then
    pure ((GetWebAppHTML app).getD [], g1)
  else
    pure ([], g1)

/-- Function `ResourceUtil::GetPreloadedResource`: the pointer returned is `none` when
null and otherwise the entry it points to. -/
def GetPreloadedResource (app : WebApp) (path : Str) (g : Globals) :
    Except Fault (Option PreloadedResource × Globals) := do
  let g1 ← lockGuard g
  let g2 ← if !g1.g_resourcesInitialized then InitializePreloadedResources app g1 else pure g1
  match g2.g_preloadedResources.lookup path with
  | some r => if r.loaded then pure (some r, unlockGuard g2) else pure (none, unlockGuard g2)
  | none => pure (none, unlockGuard g2)

/-- Function `ResourceUtil::AreResourcesInitialized`. -/
def AreResourcesInitialized (g : Globals) : Except Fault (Bool × Globals) := do
  let g1 ← lockGuard g
  pure (g1.g_resourcesInitialized, unlockGuard g1)

/-- Conversion to the 32-bit `int`: the value modulo 2^32, taken in the range
from -2^31 to 2^31 - 1. -/
def toInt32 (n : Int) : Int := (n + 2147483648) % 4294967296 - 2147483648

/-- The `struct PreloadStats`: `int` is 32-bit and `size_t` 64-bit. -/
structure PreloadStats where
  totalResources : Int
  loadedResources : Int
  totalBytes : Nat
  allLoaded : Bool
  deriving DecidableEq, Repr

/-- Function `ResourceUtil::GetPreloadStats`. The size of the map goes through
`static_cast<int>`; `loadedResources++` is kept in the range of `int` by the
same conversion (in the source its overflow, which takes 2^31 loaded entries,
is undefined). -/
def GetPreloadStats (g : Globals) : Except Fault (PreloadStats × Globals) := do
  let g1 ← lockGuard g
  let totalResources := toInt32 g1.g_preloadedResources.length
  let counted :=
    g1.g_preloadedResources.foldl
      (fun (acc : Int × Nat) pair =>
        if pair.2.loaded then
          (toInt32 (acc.1 + 1), (acc.2 + pair.2.data.length) % 18446744073709551616)
        else acc)
      (0, 0)
  pure
    ({ totalResources := totalResources
       loadedResources := counted.1
       totalBytes := counted.2
       allLoaded := decide (counted.1 = totalResources) && decide (totalResources > 0) },
      unlockGuard g1)

/-- A `CefStreamReader` over a copy of the bytes handed to
`CefStreamReader::CreateForData`. -/
structure CefStreamReader where
  data : Bytes
  deriving DecidableEq

/-- Function `ResourceUtil::CreateResourceReader`: null for empty data. -/
def CreateResourceReader (data : Bytes) : Option CefStreamReader :=
  if data.isEmpty then none else some { data := data }

/-! ## The scheme handler (`binaryresourceprovider.cpp`) -/

/-- The object built by `new CefStreamResourceHandler(mime_type, stream)`. -/
structure CefStreamResourceHandler where
  mime_type : Str
  stream : CefStreamReader
  deriving DecidableEq

/-- Method `std::string::find(pat)`: the first position at which `pat` occurs in the
string, `none` for `npos`. -/
def find (pat : Str) : Str → Option Nat
  | [] => if pat.isPrefixOf [] then some 0 else none
  | c :: rest =>
    if pat.isPrefixOf (c :: rest) then some 0 else (find pat rest).map (· + 1)

/-- Method `std::string::substr(pos)`: throws `out_of_range` when `pos > size()`. -/
def substr (s : Str) (pos : Nat) : Except Fault Str :=
  if pos > s.length then .error .out_of_range else .ok (s.drop pos)

/-- The literal `"miko://app"`. -/
def appUrl : Str := "miko://app".toList

/-- Function `BinaryResourceProvider::Create`, as a function of the request URL and the
globals of the resource store; `none` is the `nullptr` result, and
`resource_data` is `none` on the two paths of the fallback that return
`nullptr` at once. -/
def Create (app : WebApp) (url : Str) (g : Globals) :
    Except Fault (Option CefStreamResourceHandler × Globals) :=
  if find appUrl url ≠ some 0 then
    pure (none, g)
  else do
    let path0 ← substr url 10
    let path := if path0.isEmpty || decide (path0 = "/".toList) then indexPath else path0
    let actualPath := if path ≠ indexPath then indexPath else path
    let (preloaded, g1) ← GetPreloadedResource app actualPath g
    let fallback : Except Fault (Option Bytes × Globals) :=
      let resource_id := GetResourceId actualPath
      if resource_id = -1 then
        pure (none, g1)
      else do
        let (loaded_data, g3) ← LoadBinaryResource app resource_id g1
        if loaded_data.isEmpty then pure (none, g3) else pure (some loaded_data, g3)
    let (resource_data, g2) ←
      match preloaded with
      | some p => if p.loaded then pure (some p.data, g1) else fallback
      | none => fallback
    match resource_data with
    | none => pure (none, g2)
    | some data =>
      match CreateResourceReader data with
      | none => pure (none, g2)
      | some stream =>
        pure (some { mime_type := GetMimeType actualPath, stream := stream }, g2)

/-- Whether no call of the sequence is `SetState(READY, _)`. -/
def noSetReady (ops : List Op) : Bool :=
  ops.all fun op => match op with
    | .SetState s _ => decide (s ≠ .READY)
    | _ => true

/-- A three-byte document used in the examples. -/
def demoApp : WebApp := { html := some [60, 104, 62] }

/-- The globals once `InitializePreloadedResources` has run on `demoApp`. -/
def demoGlobals : Globals :=
  { g_preloadedResources :=
      [(indexPath, { data := [60, 104, 62], mimeType := "text/html".toList, loaded := true })]
    g_resourceMutex := false
    g_resourcesInitialized := true }

/-- Whether `q` is `p` with the case of some of its letters changed: at each
position the character of `q` is that of `p`, its lower-case or its upper-case
form. -/
def caseVariant : Str → Str → Bool
  | [], [] => true
  | a :: p, b :: q =>
    (decide (b = a) || decide (b = a.toLower) || decide (b = a.toUpper)) && caseVariant p q
  | _, _ => false

/-- The progress that the `switch` of `SetState` assigns for a state: `none` for
`ERROR_STATE`, whose case makes no `SetProgress` call. -/
def fixedProgress : LoadingState → Option F32
  | .INITIALIZING => some F32.lit0_1
  | .PRELOADING_RESOURCES => some F32.lit0_3
  | .CREATING_WINDOW => some F32.lit0_5
  | .LOADING_CONTENT => some F32.lit0_8
  | .READY => some F32.lit1_0
  | .ERROR_STATE => none

/-- The integer value of a `LoadingState` in the `enum`. -/
def stateRank : LoadingState → Nat
  | .INITIALIZING => 0
  | .PRELOADING_RESOURCES => 1
  | .CREATING_WINDOW => 2
  | .LOADING_CONTENT => 3
  | .READY => 4
  | .ERROR_STATE => 5

/-- Whether a sequence of calls moves forward only: it has no `SetProgress`
call, and each `SetState` call names `ERROR_STATE` or a state that does not
come before `last`, the non-error state named last. -/
def forwardOps : LoadingState → List Op → Bool
  | _, [] => true
  | last, op :: rest =>
    match op with
    | .SetState s _ =>
      if s = .ERROR_STATE then forwardOps last rest
      else decide (stateRank last ≤ stateRank s) && forwardOps s rest
    | .SetProgress _ => false
    | _ => forwardOps last rest

/-- A call on the resource store: `InitializePreloadedResources()` or
`GetPreloadedResource(path)`. -/
inductive StoreCall where
  | init
  | get (path : Str)
  deriving DecidableEq

/-- Effect of one call on the globals of the resource store. -/
def storeStep (app : WebApp) (c : StoreCall) (g : Globals) : Except Fault Globals :=
  match c with
  | .init => InitializePreloadedResources app g
  | .get path => (GetPreloadedResource app path g).map (·.2)

/-- Effect of a sequence of calls on the globals, first call first. -/
def storeRun (app : WebApp) : List StoreCall → Globals → Except Fault Globals
  | [], g => .ok g
  | c :: rest, g =>
    match storeStep app c g with
    | .ok g1 => storeRun app rest g1
    | .error e => .error e

/-- The part of `BinaryResourceProvider::Create` that follows the computation
of `actualPath`, from the call of `GetPreloadedResource` to the end, with
`actualPath` as a parameter. -/
def CreateFrom (app : WebApp) (actualPath : Str) (g : Globals) :
    Except Fault (Option CefStreamResourceHandler × Globals) := do
  let (preloaded, g1) ← GetPreloadedResource app actualPath g
  let fallback : Except Fault (Option Bytes × Globals) :=
    let resource_id := GetResourceId actualPath
    if resource_id = -1 then
      pure (none, g1)
    else do
      let (loaded_data, g3) ← LoadBinaryResource app resource_id g1
      if loaded_data.isEmpty then pure (none, g3) else pure (some loaded_data, g3)
  let (resource_data, g2) ←
    match preloaded with
    | some p => if p.loaded then pure (some p.data, g1) else fallback
    | none => fallback
  match resource_data with
  | none => pure (none, g2)
  | some data =>
    match CreateResourceReader data with
    | none => pure (none, g2)
    | some stream =>
      pure (some { mime_type := GetMimeType actualPath, stream := stream }, g2)

/-- A build without a compiled-in document: `GetWebAppHTML()` is null. -/
def emptyApp : WebApp := { html := none }

/-- The globals of an initialized store that holds no resource. -/
def emptyStore : Globals :=
  { g_preloadedResources := [], g_resourceMutex := false, g_resourcesInitialized := true }

/-! ## Two execution contexts

`SetState(READY, message)` runs in one context and `OnContentLoaded()` in
another. Every load or store of a `std::atomic` field (they are sequentially
consistent) and every call on the window is one step of its context; the steps
of the two contexts interleave in any order. -/

/-- The program points of the two calls: the next load, store or window call
to execute. -/
inductive Pc where
  /-- In `SetState`: `current_state_.store(static_cast<int>(state))`. -/
  | setStateStore
  /-- In `SetState`: `state_message_ = message`. -/
  | setStateMessage
  /-- In `SetState`: the store of `SetProgress(1.0f)`. -/
  | setStateProgress
  /-- In `SetState`: `content_loaded_.load()` of the auto-show test. -/
  | setStateLoadContent
  /-- In `SetState`: `!window_shown_.load()` of the auto-show test. -/
  | setStateLoadShown
  /-- In `OnContentLoaded`: `content_loaded_.store(true)`. -/
  | contentStore
  /-- In `OnContentLoaded`: `GetState() == READY`. -/
  | contentLoadState
  /-- In `OnContentLoaded`: `!window_shown_.load()`. -/
  | contentLoadShown
  /-- In `ShowWindowWhenReady`: the test of `window_`. -/
  | showTestWindow
  /-- In `ShowWindowWhenReady`: `!window_shown_.load()`. -/
  | showLoadShown
  /-- In `ShowWindowWhenReady`: `GetState() == READY`. -/
  | showLoadState
  /-- In `ShowWindowWhenReady`: `window_->CenterWindow(CefSize(1200, 800))`. -/
  | showCenter
  /-- In `ShowWindowWhenReady`: `window_->Show()`. -/
  | showShow
  /-- In `ShowWindowWhenReady`: `window_shown_.store(true)`. -/
  | showStore
  /-- The call has returned. -/
  | done
  deriving DecidableEq, Repr

/-- One step of a context at program point `pc` on the shared fields: the next
program point and the fields afterwards. A test that fails leads to `done`
(the call returns); `message` is the argument of `SetState`. -/
def pcStep (message : Str) (pc : Pc) (m : LoadingManager) : Pc × LoadingManager :=
  match pc with
  | .setStateStore => (.setStateMessage, { m with current_state_ := .READY })
  | .setStateMessage => (.setStateProgress, { m with state_message_ := message })
  | .setStateProgress => (.setStateLoadContent, m.SetProgress F32.lit1_0)
  | .setStateLoadContent => (if m.content_loaded_ then .setStateLoadShown else .done, m)
  | .setStateLoadShown => (if !m.window_shown_ then .showTestWindow else .done, m)
  | .contentStore => (.contentLoadState, { m with content_loaded_ := true })
  | .contentLoadState => (if m.GetState = .READY then .contentLoadShown else .done, m)
  | .contentLoadShown => (if !m.window_shown_ then .showTestWindow else .done, m)
  | .showTestWindow => (if m.window_.isSome then .showLoadShown else .done, m)
  | .showLoadShown => (if !m.window_shown_ then .showLoadState else .done, m)
  | .showLoadState => (if m.GetState = .READY then .showCenter else .done, m)
  | .showCenter =>
    match m.window_ with
    | some w => (.showShow, { m with calls := m.calls ++ [WindowCall.CenterWindow w 1200 800] })
    | none => (.done, m)
  | .showShow =>
    match m.window_ with
    | some w => (.showStore, { m with calls := m.calls ++ [WindowCall.Show w] })
    | none => (.done, m)
  | .showStore => (.done, { m with window_shown_ := true })
  | .done => (.done, m)

/-- The two contexts. -/
inductive Ctx where
  | setState
  | onContent
  deriving DecidableEq, Repr

/-- The program points of the two contexts and the shared fields. -/
structure Race where
  pcSetState : Pc
  pcOnContent : Pc
  mem : LoadingManager

/-- Both calls about to start on the fields `m`. -/
def Race.start (m : LoadingManager) : Race :=
  { pcSetState := .setStateStore, pcOnContent := .contentStore, mem := m }

/-- The context `c` makes its next step. -/
def raceStep (message : Str) (c : Ctx) (r : Race) : Race :=
  match c with
  | .setState =>
    { r with pcSetState := (pcStep message r.pcSetState r.mem).1
             mem := (pcStep message r.pcSetState r.mem).2 }
  | .onContent =>
    { r with pcOnContent := (pcStep message r.pcOnContent r.mem).1
             mem := (pcStep message r.pcOnContent r.mem).2 }

/-- The interleaving given by a schedule, first step first. -/
def raceRun (message : Str) (schedule : List Ctx) (r : Race) : Race :=
  schedule.foldl (fun s c => raceStep message c s) r

/-- A schedule in which both contexts pass every test before either stores
`window_shown_`. -/
def racySchedule : List Ctx :=
  [.setState, .setState, .setState, .onContent, .setState, .setState, .onContent, .onContent,
   .setState, .setState, .setState, .onContent, .onContent, .onContent,
   .setState, .setState, .setState, .onContent, .onContent, .onContent]

/-! ## Properties of the readiness machine -/

theorem run_nil (m : LoadingManager) : run [] m = m := rfl

theorem run_cons (op : Op) (ops : List Op) (m : LoadingManager) :
    run (op :: ops) m = run ops (step op m) := rfl

theorem run_append (ops more : List Op) (m : LoadingManager) :
    run (ops ++ more) m = run more (run ops m) := by
  simp [run, List.foldl_append]

theorem run_snoc (ops : List Op) (op : Op) (m : LoadingManager) :
    run (ops ++ [op]) m = step op (run ops m) := by
  simp [run_append, run_cons, run_nil]

/-- What a step that turns `window_shown_` on looks like: the state is `READY`
afterwards, a window is recorded, the two window calls are appended, and unless
the step is a direct `ShowWindowWhenReady` the content is loaded. -/
theorem step_show_facts (op : Op) (s : LoadingManager)
    (hbefore : s.window_shown_ = false) (hafter : (step op s).window_shown_ = true) :
    (step op s).current_state_ = .READY ∧
      (∃ w, s.window_ = some w ∧
        (step op s).calls = s.calls ++ [WindowCall.CenterWindow w 1200 800, WindowCall.Show w]) ∧
      (op ≠ .ShowWindowWhenReady → (step op s).content_loaded_ = true) := by
  obtain ⟨st, p, sm, em, w, cl, ws, cs⟩ := s
  simp only at hbefore
  subst hbefore
  cases op with
  | SetState state msg =>
    cases state <;> cases w <;> cases cl <;>
      simp_all [step, LoadingManager.SetState, LoadingManager.SetProgress,
        LoadingManager.ShowWindowWhenReady, LoadingManager.GetState]
  | SetProgress q => simp [step, LoadingManager.SetProgress] at hafter
  | SetWindow w2 => simp [step, LoadingManager.SetWindow] at hafter
  | ShowWindowWhenReady =>
    cases w <;> cases st <;>
      simp_all [step, LoadingManager.ShowWindowWhenReady, LoadingManager.GetState]
  | OnContentLoaded =>
    cases w <;> cases st <;>
      simp_all [step, LoadingManager.OnContentLoaded,
        LoadingManager.ShowWindowWhenReady, LoadingManager.GetState]
  | SetError e =>
    simp [step, LoadingManager.SetError, LoadingManager.SetState] at hafter

/-- No step turns `window_shown_` off. -/
theorem step_keeps_shown (op : Op) (s : LoadingManager) (h : s.window_shown_ = true) :
    (step op s).window_shown_ = true ∧ (step op s).calls = s.calls := by
  obtain ⟨st, p, sm, em, w, cl, ws, cs⟩ := s
  simp only at h
  subst h
  cases op with
  | SetState state msg =>
    cases state <;> cases w <;> cases cl <;>
      simp [step, LoadingManager.SetState, LoadingManager.SetProgress,
        LoadingManager.ShowWindowWhenReady, LoadingManager.GetState]
  | SetProgress q => simp [step, LoadingManager.SetProgress]
  | SetWindow w2 => simp [step, LoadingManager.SetWindow]
  | ShowWindowWhenReady =>
    cases w <;> simp [step, LoadingManager.ShowWindowWhenReady, LoadingManager.GetState]
  | OnContentLoaded =>
    cases w <;> cases st <;>
      simp [step, LoadingManager.OnContentLoaded,
        LoadingManager.ShowWindowWhenReady, LoadingManager.GetState]
  | SetError e =>
    simp [step, LoadingManager.SetError, LoadingManager.SetState]

/-- A step that leaves `window_shown_` off makes no call on the window. -/
theorem step_hidden_calls (op : Op) (s : LoadingManager)
    (hafter : (step op s).window_shown_ = false) : (step op s).calls = s.calls := by
  obtain ⟨st, p, sm, em, w, cl, ws, cs⟩ := s
  cases op with
  | SetState state msg =>
    cases state <;> cases w <;> cases cl <;> cases ws <;>
      simp_all [step, LoadingManager.SetState, LoadingManager.SetProgress,
        LoadingManager.ShowWindowWhenReady, LoadingManager.GetState]
  | SetProgress q => simp [step, LoadingManager.SetProgress]
  | SetWindow w2 => simp [step, LoadingManager.SetWindow]
  | ShowWindowWhenReady =>
    cases w <;> cases st <;> cases ws <;>
      simp_all [step, LoadingManager.ShowWindowWhenReady, LoadingManager.GetState]
  | OnContentLoaded =>
    cases w <;> cases st <;> cases ws <;>
      simp_all [step, LoadingManager.OnContentLoaded,
        LoadingManager.ShowWindowWhenReady, LoadingManager.GetState]
  | SetError e =>
    simp [step, LoadingManager.SetError, LoadingManager.SetState]

theorem run_keeps_shown (ops : List Op) (s : LoadingManager) (h : s.window_shown_ = true) :
    (run ops s).window_shown_ = true ∧ (run ops s).calls = s.calls := by
  induction ops generalizing s with
  | nil => exact ⟨h, rfl⟩
  | cons op rest ih =>
    have h1 := step_keeps_shown op s h
    have h2 := ih (step op s) h1.1
    rw [run_cons]
    exact ⟨h2.1, h2.2.trans h1.2⟩

/-- The record of window calls along a run from the initial state: empty while
the window is hidden, one `CenterWindow` followed by one `Show` once shown. -/
theorem run_calls_shape (ops : List Op) :
    ((run ops LoadingManager.init).window_shown_ = false ∧
        (run ops LoadingManager.init).calls = []) ∨
      ((run ops LoadingManager.init).window_shown_ = true ∧
        ∃ w, (run ops LoadingManager.init).calls =
          [WindowCall.CenterWindow w 1200 800, WindowCall.Show w]) := by
  induction ops using List.reverseRecOn with
  | nil => left; exact ⟨rfl, rfl⟩
  | append_singleton ops op ih =>
    rw [run_snoc]
    rcases ih with ⟨hs, hc⟩ | ⟨hs, w, hc⟩
    · cases hafter : (step op (run ops LoadingManager.init)).window_shown_ with
      | false =>
        left
        exact ⟨rfl, (step_hidden_calls op _ hafter).trans hc⟩
      | true =>
        right
        obtain ⟨_, ⟨w, _, hcalls⟩, _⟩ := step_show_facts op _ hs hafter
        exact ⟨rfl, w, by rw [hcalls, hc]; rfl⟩
    · right
      have hk := step_keeps_shown op _ hs
      exact ⟨hk.1, w, hk.2.trans hc⟩

/-- Claim C1, as stated, fails: after `SetWindow(1)` and `SetState(READY)` the
window is hidden and the content is not loaded; a direct `ShowWindowWhenReady()`
then turns `window_shown_` on and makes the window calls, with `content_loaded_`
false before and after the step. -/
theorem c1_show_without_content_loaded :
    (run [.SetWindow (some 1), .SetState .READY []] LoadingManager.init).window_shown_ = false ∧
    (run [.SetWindow (some 1), .SetState .READY []] LoadingManager.init).content_loaded_ = false ∧
    (step .ShowWindowWhenReady
      (run [.SetWindow (some 1), .SetState .READY []] LoadingManager.init)).window_shown_ = true ∧
    (step .ShowWindowWhenReady
      (run [.SetWindow (some 1), .SetState .READY []] LoadingManager.init)).content_loaded_ = false ∧
    (step .ShowWindowWhenReady
      (run [.SetWindow (some 1), .SetState .READY []] LoadingManager.init)).calls =
      [WindowCall.CenterWindow 1 1200 800, WindowCall.Show 1] := by
  decide

/-- Claim C1, amended: in every run from the initial state, a step that changes
`window_shown_` from false to true ends with `GetState() == READY` (the show is
the last store of each operation, so this is the state in which it is made) and
is taken with a window recorded; when the step is not a direct
`ShowWindowWhenReady()` call, `content_loaded_` is true as well. -/
theorem c1_show_step_is_ready (ops : List Op) (op : Op)
    (hbefore : (run ops LoadingManager.init).window_shown_ = false)
    (hafter : (step op (run ops LoadingManager.init)).window_shown_ = true) :
    (step op (run ops LoadingManager.init)).GetState = .READY ∧
      (run ops LoadingManager.init).window_ ≠ none ∧
      (op ≠ .ShowWindowWhenReady →
        (step op (run ops LoadingManager.init)).content_loaded_ = true) := by
  obtain ⟨hst, ⟨w, hw, _⟩, hcl⟩ := step_show_facts op _ hbefore hafter
  exact ⟨hst, by simp [hw], hcl⟩

/-- Claim C1, amended, at a concrete run: content loaded first, then
`SetState(READY)` shows the window. -/
theorem c1_show_step_is_ready_witness :
    (step (.SetState .READY [])
        (run [.SetWindow (some 1), .OnContentLoaded] LoadingManager.init)).GetState = .READY ∧
      (run [.SetWindow (some 1), .OnContentLoaded] LoadingManager.init).window_ ≠ none ∧
      (Op.SetState .READY [] ≠ .ShowWindowWhenReady →
        (step (.SetState .READY [])
          (run [.SetWindow (some 1), .OnContentLoaded] LoadingManager.init)).content_loaded_
            = true) :=
  c1_show_step_is_ready [.SetWindow (some 1), .OnContentLoaded] (.SetState .READY [])
    (by decide) (by decide)

/-- Claim C3: along every sequence of operations from the initial state
(direct `ShowWindowWhenReady()` calls included) at most one `Show` call is made,
the calls made on the window are either none or one `CenterWindow(1200, 800)`
followed by one `Show` on the same window, and from a state with `window_shown_`
true every further sequence of operations leaves it true. -/
theorem c3_show_at_most_once (ops : List Op) :
    (run ops LoadingManager.init).showsExecuted ≤ 1 ∧
      ((run ops LoadingManager.init).calls = [] ∨
        ∃ w, (run ops LoadingManager.init).calls =
          [WindowCall.CenterWindow w 1200 800, WindowCall.Show w]) ∧
      ∀ more : List Op, (run ops LoadingManager.init).window_shown_ = true →
        (run (ops ++ more) LoadingManager.init).window_shown_ = true := by
  refine ⟨?_, ?_, ?_⟩
  · rcases run_calls_shape ops with ⟨_, hc⟩ | ⟨_, w, hc⟩ <;>
      simp [LoadingManager.showsExecuted, hc]
  · rcases run_calls_shape ops with ⟨_, hc⟩ | ⟨_, w, hc⟩
    · exact Or.inl hc
    · exact Or.inr ⟨w, hc⟩
  · intro more h
    rw [run_append]
    exact (run_keeps_shown more _ h).1

/-- Claim C3 at a concrete run: the window is shown, then every operation that
could show it is called again. -/
theorem c3_show_at_most_once_witness :
    (run [.SetWindow (some 1), .OnContentLoaded, .SetState .READY []]
        LoadingManager.init).showsExecuted ≤ 1 ∧
    (run ([.SetWindow (some 1), .OnContentLoaded, .SetState .READY []] ++
        [.ShowWindowWhenReady, .SetState .INITIALIZING [], .SetState .READY [],
          .OnContentLoaded, .ShowWindowWhenReady])
        LoadingManager.init).window_shown_ = true :=
  ⟨(c3_show_at_most_once [.SetWindow (some 1), .OnContentLoaded, .SetState .READY []]).1,
    (c3_show_at_most_once [.SetWindow (some 1), .OnContentLoaded, .SetState .READY []]).2.2
      [.ShowWindowWhenReady, .SetState .INITIALIZING [], .SetState .READY [],
        .OnContentLoaded, .ShowWindowWhenReady] (by decide)⟩

/-- Claim C7: whatever the prior state and the message `x`, after `SetError(x)`
`GetState()` is `ERROR_STATE`, `HasError()` is true and `GetError()` is `x`. -/
theorem c7_setError_absorbs (m : LoadingManager) (x : Str) :
    (m.SetError x).GetState = .ERROR_STATE ∧
      (m.SetError x).HasError = true ∧
      (m.SetError x).GetError = x := by
  simp [LoadingManager.SetError, LoadingManager.SetState, LoadingManager.GetState,
    LoadingManager.HasError, LoadingManager.GetError]

theorem setError_state (m : LoadingManager) (x : Str) :
    (m.SetError x).current_state_ = .ERROR_STATE := by
  simp [LoadingManager.SetError, LoadingManager.SetState]

/-- The state stored by one step. -/
theorem step_current_state (op : Op) (s : LoadingManager) :
    (step op s).current_state_ =
      match op with
      | .SetState st _ => st
      | .SetError _ => .ERROR_STATE
      | _ => s.current_state_ := by
  obtain ⟨st, p, sm, em, w, cl, ws, cs⟩ := s
  cases op with
  | SetState state msg =>
    cases state <;> cases w <;> cases cl <;> cases ws <;>
      simp [step, LoadingManager.SetState, LoadingManager.SetProgress,
        LoadingManager.ShowWindowWhenReady, LoadingManager.GetState]
  | SetProgress q => simp [step, LoadingManager.SetProgress]
  | SetWindow w2 => simp [step, LoadingManager.SetWindow]
  | ShowWindowWhenReady =>
    cases w <;> cases st <;> cases ws <;>
      simp [step, LoadingManager.ShowWindowWhenReady, LoadingManager.GetState]
  | OnContentLoaded =>
    cases w <;> cases st <;> cases ws <;>
      simp [step, LoadingManager.OnContentLoaded,
        LoadingManager.ShowWindowWhenReady, LoadingManager.GetState]
  | SetError e =>
    simp [step, LoadingManager.SetError, LoadingManager.SetState]

/-- A run whose `SetState` calls all name `ERROR_STATE` keeps the state
`ERROR_STATE`. -/
theorem run_keeps_error (ops : List Op) (s : LoadingManager)
    (hs : s.current_state_ = .ERROR_STATE) (hops : onlyErrorSetState ops = true) :
    (run ops s).current_state_ = .ERROR_STATE := by
  induction ops generalizing s with
  | nil => exact hs
  | cons op rest ih =>
    rw [run_cons]
    simp only [onlyErrorSetState, List.all_cons, Bool.and_eq_true] at hops
    refine ih _ ?_ (by simpa [onlyErrorSetState] using hops.2)
    rw [step_current_state]
    cases op <;> simp_all

/-- A run without `SetState(READY)` from a hidden, non-`READY` state never
reaches `READY`, leaves the window hidden and makes no window call. -/
theorem run_stays_hidden (ops : List Op) (s : LoadingManager)
    (hs : s.current_state_ ≠ .READY) (hw : s.window_shown_ = false)
    (hops : noSetReady ops = true) :
    (run ops s).current_state_ ≠ .READY ∧ (run ops s).window_shown_ = false ∧
      (run ops s).calls = s.calls := by
  induction ops generalizing s with
  | nil => exact ⟨hs, hw, rfl⟩
  | cons op rest ih =>
    rw [run_cons]
    simp only [noSetReady, List.all_cons, Bool.and_eq_true] at hops
    have hst : (step op s).current_state_ ≠ .READY := by
      rw [step_current_state]
      cases op <;> simp_all
    have hhid : (step op s).window_shown_ = false := by
      cases hafter : (step op s).window_shown_ with
      | false => rfl
      | true => exact absurd (step_show_facts op s hw hafter).1 hst
    obtain ⟨h1, h2, h3⟩ := ih (step op s) hst hhid (by simpa [noSetReady] using hops.2)
    exact ⟨h1, h2, h3.trans (step_hidden_calls op s hhid)⟩

/-- Claim C8, as stated, fails: `SetState(INITIALIZING)` after `SetError("x")`
stores `INITIALIZING`, and `HasError()` is false again. -/
theorem c8_error_left_by_setState :
    (run [.SetError ['x']] LoadingManager.init).HasError = true ∧
    (run [.SetError ['x'], .SetState .INITIALIZING []] LoadingManager.init).GetState
      = .INITIALIZING ∧
    (run [.SetError ['x'], .SetState .INITIALIZING []] LoadingManager.init).HasError
      = false := by
  decide

/-- Claim C8, amended: once `SetError` has been called, `GetState()` is
`ERROR_STATE` and `HasError()` is true after every subsequent sequence of
operations none of whose `SetState` calls names a non-error state; a subsequent
`SetState(s, msg)` call stores `s`. -/
theorem c8_error_kept_until_setState (m : LoadingManager) (x : Str) (ops : List Op)
    (hops : onlyErrorSetState ops = true) :
    (run ops (m.SetError x)).GetState = .ERROR_STATE ∧
      (run ops (m.SetError x)).HasError = true ∧
      ∀ (s : LoadingState) (msg : Str),
        (run (ops ++ [.SetState s msg]) (m.SetError x)).GetState = s := by
  have h : (run ops (m.SetError x)).current_state_ = .ERROR_STATE :=
    run_keeps_error ops _ (setError_state m x) hops
  refine ⟨h, by simp [LoadingManager.HasError, LoadingManager.GetState, h], ?_⟩
  intro s msg
  rw [run_snoc]
  exact step_current_state (.SetState s msg) _

/-- Claim C8, amended, at a concrete run: the error survives every operation
but a `SetState` naming another state. -/
theorem c8_error_kept_until_setState_witness :
    (run [.OnContentLoaded, .SetWindow (some 1), .SetProgress F32.lit0_5,
        .ShowWindowWhenReady, .SetState .ERROR_STATE [], .SetError ['y']]
        ((run [.SetState .READY []] LoadingManager.init).SetError ['x'])).GetState
      = .ERROR_STATE ∧
    (run [.OnContentLoaded, .SetWindow (some 1), .SetProgress F32.lit0_5,
        .ShowWindowWhenReady, .SetState .ERROR_STATE [], .SetError ['y']]
        ((run [.SetState .READY []] LoadingManager.init).SetError ['x'])).HasError = true :=
  ⟨(c8_error_kept_until_setState (run [.SetState .READY []] LoadingManager.init) ['x']
      [.OnContentLoaded, .SetWindow (some 1), .SetProgress F32.lit0_5,
        .ShowWindowWhenReady, .SetState .ERROR_STATE [], .SetError ['y']] (by decide)).1,
    (c8_error_kept_until_setState (run [.SetState .READY []] LoadingManager.init) ['x']
      [.OnContentLoaded, .SetWindow (some 1), .SetProgress F32.lit0_5,
        .ShowWindowWhenReady, .SetState .ERROR_STATE [], .SetError ['y']] (by decide)).2.1⟩

/-- Claim C9, as stated, fails: with a window recorded and hidden, `SetError("x")`
followed by `SetState(READY)` and `OnContentLoaded()` shows the window. -/
theorem c9_window_shown_after_error :
    (run [.SetWindow (some 1), .SetError ['x']] LoadingManager.init).window_shown_ = false ∧
    (run [.SetWindow (some 1), .SetError ['x']] LoadingManager.init).HasError = true ∧
    (run [.SetWindow (some 1), .SetError ['x'], .SetState .READY [], .OnContentLoaded]
      LoadingManager.init).window_shown_ = true ∧
    (run [.SetWindow (some 1), .SetError ['x'], .SetState .READY [], .OnContentLoaded]
      LoadingManager.init).calls = [WindowCall.CenterWindow 1 1200 800, WindowCall.Show 1] := by
  decide

/-- Claim C9, amended: when `SetError` is called while the window is hidden,
no sequence of subsequent operations that contains no `SetState(READY)` call
makes a window call or sets `window_shown_` to true. -/
theorem c9_no_show_after_error_without_ready (m : LoadingManager) (x : Str)
    (ops : List Op) (hhidden : m.window_shown_ = false) (hops : noSetReady ops = true) :
    (run ops (m.SetError x)).window_shown_ = false ∧
      (run ops (m.SetError x)).calls = m.calls ∧
      (run ops (m.SetError x)).showsExecuted = m.showsExecuted := by
  have hst : (m.SetError x).current_state_ ≠ .READY := by
    rw [setError_state]; decide
  have hw : (m.SetError x).window_shown_ = false := by
    simp [LoadingManager.SetError, LoadingManager.SetState, hhidden]
  have hc : (m.SetError x).calls = m.calls := by
    simp [LoadingManager.SetError, LoadingManager.SetState]
  obtain ⟨_, h2, h3⟩ := run_stays_hidden ops _ hst hw hops
  exact ⟨h2, h3.trans hc, by simp [LoadingManager.showsExecuted, h3.trans hc]⟩

/-- Claim C9, amended, at a concrete run: after the error, content loads, the
show sequence is called and other states are set, and the window stays hidden. -/
theorem c9_no_show_after_error_without_ready_witness :
    (run [.OnContentLoaded, .ShowWindowWhenReady, .SetState .LOADING_CONTENT [],
        .OnContentLoaded, .SetProgress F32.lit1_0, .ShowWindowWhenReady]
        ((run [.SetWindow (some 1), .SetState .READY []] LoadingManager.init).SetError
          ['x'])).window_shown_ = false :=
  (c9_no_show_after_error_without_ready
    (run [.SetWindow (some 1), .SetState .READY []] LoadingManager.init) ['x']
    [.OnContentLoaded, .ShowWindowWhenReady, .SetState .LOADING_CONTENT [],
      .OnContentLoaded, .SetProgress F32.lit1_0, .ShowWindowWhenReady]
    (by decide) (by decide)).1

/-- The clamp of `SetProgress` leaves a finite value between 0 and 1 as it is. -/
theorem clamp_of_unit (q : ℚ) (h0 : 0 ≤ q) (h1 : q ≤ 1) :
    F32.stdMax F32.lit0_0 (F32.stdMin F32.lit1_0 (F32.fin q)) = F32.fin q := by
  have hmin : F32.stdMin F32.lit1_0 (F32.fin q) = F32.fin q := by
    rcases h1.eq_or_lt with h | h
    · subst h; simp [F32.stdMin, F32.lit1_0, F32.lt]
    · simp [F32.stdMin, F32.lit1_0, F32.lt, h]
  rw [hmin]
  rcases h0.eq_or_lt with h | h
  · subst h; simp [F32.stdMax, F32.lit0_0, F32.lt]
  · simp [F32.stdMax, F32.lit0_0, F32.lt, h]

/-- Claim C10: whatever the prior state and the message `m`, `SetState(s, m)`
stores state `s` and message `m`; the stored progress is the literal of the
state (`0.1f`, `0.3f`, `0.5f`, `0.8f`, `1.0f` for `INITIALIZING`,
`PRELOADING_RESOURCES`, `CREATING_WINDOW`, `LOADING_CONTENT`, `READY`), and
`SetState(ERROR_STATE, m)` leaves the stored progress as it was. -/
theorem c10_setState_progress (m : LoadingManager) (msg : Str) :
    (∀ s : LoadingState,
        (m.SetState s msg).GetState = s ∧ (m.SetState s msg).GetStateMessage = msg) ∧
      (m.SetState .INITIALIZING msg).GetProgress = F32.lit0_1 ∧
      (m.SetState .PRELOADING_RESOURCES msg).GetProgress = F32.lit0_3 ∧
      (m.SetState .CREATING_WINDOW msg).GetProgress = F32.lit0_5 ∧
      (m.SetState .LOADING_CONTENT msg).GetProgress = F32.lit0_8 ∧
      (m.SetState .READY msg).GetProgress = F32.lit1_0 ∧
      (m.SetState .ERROR_STATE msg).GetProgress = m.GetProgress := by
  have e1 : F32.stdMax F32.lit0_0 (F32.stdMin F32.lit1_0 F32.lit0_1) = F32.lit0_1 :=
    clamp_of_unit _ (by norm_num) (by norm_num)
  have e3 : F32.stdMax F32.lit0_0 (F32.stdMin F32.lit1_0 F32.lit0_3) = F32.lit0_3 :=
    clamp_of_unit _ (by norm_num) (by norm_num)
  have e5 : F32.stdMax F32.lit0_0 (F32.stdMin F32.lit1_0 F32.lit0_5) = F32.lit0_5 :=
    clamp_of_unit _ (by norm_num) (by norm_num)
  have e8 : F32.stdMax F32.lit0_0 (F32.stdMin F32.lit1_0 F32.lit0_8) = F32.lit0_8 :=
    clamp_of_unit _ (by norm_num) (by norm_num)
  have e10 : F32.stdMax F32.lit0_0 (F32.stdMin F32.lit1_0 F32.lit1_0) = F32.lit1_0 :=
    clamp_of_unit _ (by norm_num) (by norm_num)
  obtain ⟨st, p, sm, em, w, cl, ws, cs⟩ := m
  refine ⟨?_, ?_, ?_, ?_, ?_, ?_, ?_⟩
  · intro s
    cases s <;> cases w <;> cases cl <;> cases ws <;>
      simp [LoadingManager.SetState, LoadingManager.SetProgress,
        LoadingManager.ShowWindowWhenReady, LoadingManager.GetState,
        LoadingManager.GetStateMessage]
  · simp [LoadingManager.SetState, LoadingManager.SetProgress, LoadingManager.GetProgress, e1]
  · simp [LoadingManager.SetState, LoadingManager.SetProgress, LoadingManager.GetProgress, e3]
  · simp [LoadingManager.SetState, LoadingManager.SetProgress, LoadingManager.GetProgress, e5]
  · simp [LoadingManager.SetState, LoadingManager.SetProgress, LoadingManager.GetProgress, e8]
  · cases w <;> cases cl <;> cases ws <;>
      simp [LoadingManager.SetState, LoadingManager.SetProgress,
        LoadingManager.ShowWindowWhenReady, LoadingManager.GetState,
        LoadingManager.GetProgress, e10]
  · simp [LoadingManager.SetState, LoadingManager.GetProgress]

theorem hasReady_snoc (cs : List ReadyCall) (c : ReadyCall) :
    hasReady (cs ++ [c]) = (hasReady cs || c.isReady) := by
  simp [hasReady, List.any_append]

theorem hasContent_snoc (cs : List ReadyCall) (c : ReadyCall) :
    hasContent (cs ++ [c]) = (hasContent cs || c.isContent) := by
  simp [hasContent, List.any_append]

/-- The machine after a sequence of `SetState(READY)` and `OnContentLoaded()`
calls made with window `w` recorded. -/
theorem ready_run_state (w : CefWindow) (cs : List ReadyCall) :
    (run (cs.map ReadyCall.toOp) (LoadingManager.init.SetWindow (some w))).window_ = some w ∧
    ((run (cs.map ReadyCall.toOp) (LoadingManager.init.SetWindow (some w))).current_state_
        = .READY ↔ hasReady cs = true) ∧
    (run (cs.map ReadyCall.toOp) (LoadingManager.init.SetWindow (some w))).content_loaded_
        = hasContent cs ∧
    (run (cs.map ReadyCall.toOp) (LoadingManager.init.SetWindow (some w))).window_shown_
        = (hasReady cs && hasContent cs) ∧
    (run (cs.map ReadyCall.toOp) (LoadingManager.init.SetWindow (some w))).calls
        = if (hasReady cs && hasContent cs) = true then
            [WindowCall.CenterWindow w 1200 800, WindowCall.Show w]
          else [] := by
  induction cs using List.reverseRecOn with
  | nil =>
    simp [run_nil, LoadingManager.SetWindow, LoadingManager.init, hasReady, hasContent]
  | append_singleton cs c ih =>
    rw [List.map_append, List.map_singleton, run_snoc, hasReady_snoc, hasContent_snoc]
    generalize run (cs.map ReadyCall.toOp) (LoadingManager.init.SetWindow (some w)) = s at ih
    obtain ⟨st, p, sm, em, w2, cl, ws, calls⟩ := s
    obtain ⟨h1, h2, h3, h4, h5⟩ := ih
    simp only at h1 h2 h3 h4 h5
    subst h1 h3 h4 h5
    cases c with
    | setReady msg =>
      cases hr : hasReady cs <;> cases hc : hasContent cs <;>
        simp [ReadyCall.toOp, ReadyCall.isReady, ReadyCall.isContent, step,
          LoadingManager.SetState, LoadingManager.SetProgress,
          LoadingManager.ShowWindowWhenReady, LoadingManager.GetState]
    | contentLoaded =>
      cases hr : hasReady cs <;> cases hc : hasContent cs <;> cases st <;>
        simp_all [ReadyCall.toOp, ReadyCall.isReady, ReadyCall.isContent, step,
          LoadingManager.OnContentLoaded, LoadingManager.ShowWindowWhenReady,
          LoadingManager.GetState]

/-- Claim C2: starting from the initial state with the non-null window `w`
recorded, for every sequence of `SetState(READY)` and `OnContentLoaded()` calls
split as `pre ++ [c] ++ post`: while only one of the two kinds of call has
occurred (in `pre`) no window call has been made and the window is hidden; if
`c` is the first call after which both kinds have occurred, the calls made up to
and including `c` are exactly `CenterWindow(1200, 800)` then `Show` on `w`; and
once both have occurred, the `Show` count is 1 after every continuation `post`. -/
theorem c2_show_exactly_once (w : CefWindow) (pre post : List ReadyCall) (c : ReadyCall) :
    ((hasReady pre && hasContent pre) = false →
      (run (pre.map ReadyCall.toOp) (LoadingManager.init.SetWindow (some w))).calls = [] ∧
      (run (pre.map ReadyCall.toOp)
        (LoadingManager.init.SetWindow (some w))).window_shown_ = false ∧
      (run (pre.map ReadyCall.toOp)
        (LoadingManager.init.SetWindow (some w))).showsExecuted = 0) ∧
    ((hasReady pre && hasContent pre) = false →
      (hasReady (pre ++ [c]) && hasContent (pre ++ [c])) = true →
      (run ((pre ++ [c]).map ReadyCall.toOp) (LoadingManager.init.SetWindow (some w))).calls
        = [WindowCall.CenterWindow w 1200 800, WindowCall.Show w] ∧
      (run ((pre ++ [c]).map ReadyCall.toOp)
        (LoadingManager.init.SetWindow (some w))).window_shown_ = true) ∧
    ((hasReady (pre ++ [c]) && hasContent (pre ++ [c])) = true →
      (run ((pre ++ [c] ++ post).map ReadyCall.toOp)
        (LoadingManager.init.SetWindow (some w))).calls
        = [WindowCall.CenterWindow w 1200 800, WindowCall.Show w] ∧
      (run ((pre ++ [c] ++ post).map ReadyCall.toOp)
        (LoadingManager.init.SetWindow (some w))).showsExecuted = 1) := by
  refine ⟨?_, ?_, ?_⟩
  · intro hpre
    obtain ⟨_, _, _, h4, h5⟩ := ready_run_state w pre
    rw [hpre] at h4 h5
    exact ⟨by simpa using h5, h4, by simp [LoadingManager.showsExecuted, h5]⟩
  · intro _ hboth
    obtain ⟨_, _, _, h4, h5⟩ := ready_run_state w (pre ++ [c])
    rw [hboth] at h4 h5
    exact ⟨by simpa using h5, h4⟩
  · intro hboth
    have hall : (hasReady (pre ++ [c] ++ post) && hasContent (pre ++ [c] ++ post)) = true := by
      simp only [hasReady, hasContent, List.any_append, Bool.and_eq_true, Bool.or_eq_true]
        at hboth ⊢
      exact ⟨Or.inl hboth.1, Or.inl hboth.2⟩
    obtain ⟨_, _, _, _, h5⟩ := ready_run_state w (pre ++ [c] ++ post)
    rw [hall] at h5
    have h5b : (run ((pre ++ [c] ++ post).map ReadyCall.toOp)
        (LoadingManager.init.SetWindow (some w))).calls
        = [WindowCall.CenterWindow w 1200 800, WindowCall.Show w] := by simpa using h5
    exact ⟨h5b, by rw [LoadingManager.showsExecuted, h5b]; rfl⟩

/-- Claim C2 at a concrete sequence: two `OnContentLoaded()` calls leave the
window hidden, the `SetState(READY)` that follows shows it, and the two calls
after that do not show it again. -/
theorem c2_show_exactly_once_witness :
    ((run ([ReadyCall.contentLoaded, ReadyCall.contentLoaded].map ReadyCall.toOp)
        (LoadingManager.init.SetWindow (some 1))).calls = [] ∧
      (run ([ReadyCall.contentLoaded, ReadyCall.contentLoaded].map ReadyCall.toOp)
        (LoadingManager.init.SetWindow (some 1))).window_shown_ = false ∧
      (run ([ReadyCall.contentLoaded, ReadyCall.contentLoaded].map ReadyCall.toOp)
        (LoadingManager.init.SetWindow (some 1))).showsExecuted = 0) ∧
    ((run (([ReadyCall.contentLoaded, ReadyCall.contentLoaded] ++
          [ReadyCall.setReady []]).map ReadyCall.toOp)
        (LoadingManager.init.SetWindow (some 1))).calls
        = [WindowCall.CenterWindow 1 1200 800, WindowCall.Show 1] ∧
      (run (([ReadyCall.contentLoaded, ReadyCall.contentLoaded] ++
          [ReadyCall.setReady []]).map ReadyCall.toOp)
        (LoadingManager.init.SetWindow (some 1))).window_shown_ = true) ∧
    ((run (([ReadyCall.contentLoaded, ReadyCall.contentLoaded] ++ [ReadyCall.setReady []] ++
          [ReadyCall.contentLoaded, ReadyCall.setReady []]).map ReadyCall.toOp)
        (LoadingManager.init.SetWindow (some 1))).calls
        = [WindowCall.CenterWindow 1 1200 800, WindowCall.Show 1] ∧
      (run (([ReadyCall.contentLoaded, ReadyCall.contentLoaded] ++ [ReadyCall.setReady []] ++
          [ReadyCall.contentLoaded, ReadyCall.setReady []]).map ReadyCall.toOp)
        (LoadingManager.init.SetWindow (some 1))).showsExecuted = 1) :=
  ⟨(c2_show_exactly_once 1 [ReadyCall.contentLoaded, ReadyCall.contentLoaded]
      [ReadyCall.contentLoaded, ReadyCall.setReady []] (ReadyCall.setReady [])).1 (by decide),
    (c2_show_exactly_once 1 [ReadyCall.contentLoaded, ReadyCall.contentLoaded]
      [ReadyCall.contentLoaded, ReadyCall.setReady []] (ReadyCall.setReady [])).2.1
      (by decide) (by decide),
    (c2_show_exactly_once 1 [ReadyCall.contentLoaded, ReadyCall.contentLoaded]
      [ReadyCall.contentLoaded, ReadyCall.setReady []] (ReadyCall.setReady [])).2.2
      (by decide)⟩

/-! ## Properties of the scheme handler -/

/-- The test `url.find("miko://app") != 0` fails exactly on the URLs that begin
with `miko://app`. -/
theorem find_eq_zero_iff (pat s : Str) : find pat s = some 0 ↔ pat <+: s := by
  cases s with
  | nil => simp [find]
  | cons c rest =>
    by_cases h : pat.isPrefixOf (c :: rest) = true
    · simp [find, h, ( List.isPrefixOf_iff_prefix).mp h]
    · have h2 : ¬ pat <+: c :: rest := fun hp => h (( List.isPrefixOf_iff_prefix).mpr hp)
      simp [find, h, h2]

theorem actualPath_eq (path : Str) :
    (if path ≠ indexPath then indexPath else path) = indexPath := by
  by_cases h : path = indexPath <;> simp [h]

theorem substr_appUrl (rest : Str) : substr (appUrl ++ rest) 10 = .ok rest := by
  have hl : appUrl.length = 10 := by decide
  have hd : List.drop 10 (appUrl ++ rest) = rest := by
    rw [← hl]; exact List.drop_left _ _
  simp [substr, hl, hd]

/-- Claim C4: for every request URL that begins with `miko://app`, that is
`miko://app` followed by any `rest` (empty, `/`, `/anything.css`, …), and every
content of the resource store, `Create` gives the result it gives for
`miko://app/index.html`: the same handler (same bytes, same MIME type) or the
same refusal, and the same store afterwards. -/
theorem c4_every_path_is_index (app : WebApp) (g : Globals) (rest : Str) :
    Create app (appUrl ++ rest) g = Create app (appUrl ++ indexPath) g := by
  have hf : ∀ r : Str, find appUrl (appUrl ++ r) = some 0 := fun r =>
    (find_eq_zero_iff _ _).mpr ⟨r, rfl⟩
  unfold Create
  simp only [hf, substr_appUrl, ne_eq, not_true_eq_false, ↓reduceIte, bind, Except.bind,
    actualPath_eq]

/-- Claim C5, as stated, fails: the authority of `miko://apple/index.html` is
`apple`, not `app`, and `Create` answers it with the document. -/
theorem c5_other_authority_served :
    Create demoApp "miko://apple/index.html".toList demoGlobals =
      .ok (some { mime_type := "text/html".toList, stream := { data := [60, 104, 62] } },
        demoGlobals) := by
  decide

/-- Claim C5, amended: `Create` returns `nullptr`, leaving the resource store
untouched, for every request URL that does not begin with `miko://app`: so for
every URL `scheme://rest` whose scheme is not `miko`, and for every URL
`miko://rest` whose authority does not begin with `app`. -/
theorem c5_reject_other_urls (app : WebApp) (g : Globals) :
    (∀ url : Str, ¬ appUrl <+: url → Create app url g = .ok (none, g)) ∧
    (∀ scheme rest : Str, ':' ∉ scheme → scheme ≠ "miko".toList →
      Create app (scheme ++ "://".toList ++ rest) g = .ok (none, g)) ∧
    (∀ rest : Str, ¬ "app".toList <+: rest →
      Create app ("miko://".toList ++ rest) g = .ok (none, g)) := by
  have hrej : ∀ url : Str, ¬ appUrl <+: url → Create app url g = .ok (none, g) := by
    intro url h
    have hf : find appUrl url ≠ some 0 := fun hz => h ((find_eq_zero_iff _ _).mp hz)
    simp [Create, hf, pure, Except.pure]
  refine ⟨hrej, ?_, ?_⟩
  · intro scheme rest hcolon hne
    apply hrej
    rintro ⟨t, ht⟩
    have happ : appUrl = ['m', 'i', 'k', 'o', ':', '/', '/', 'a', 'p', 'p'] := by decide
    have hmiko : "miko".toList = ['m', 'i', 'k', 'o'] := by decide
    have hsep : "://".toList = [':', '/', '/'] := by decide
    rw [happ, hsep] at ht
    rw [hmiko] at hne
    rcases scheme with _ | ⟨a, _ | ⟨b, _ | ⟨c, _ | ⟨d, _ | ⟨e, u⟩⟩⟩⟩⟩ <;>
      simp_all
    obtain ⟨h1, h2, h3, h4, _⟩ := ht
    exact hne h1.symm h2.symm h3.symm h4.symm
  · intro rest h
    apply hrej
    rintro ⟨t, ht⟩
    apply h
    have happ : appUrl = "miko://".toList ++ "app".toList := by decide
    rw [happ, List.append_assoc] at ht
    exact ⟨t, List.append_cancel_left ht⟩

/-- Claim C5, amended, at concrete URLs: `other-scheme://app/index.html` and
`miko://web/index.html` are refused. -/
theorem c5_reject_other_urls_witness :
    Create demoApp "other-scheme://app/index.html".toList demoGlobals
      = .ok (none, demoGlobals) ∧
    Create demoApp ("other-scheme".toList ++ "://".toList ++ "app/index.html".toList)
      demoGlobals = .ok (none, demoGlobals) ∧
    Create demoApp ("miko://".toList ++ "web/index.html".toList) demoGlobals
      = .ok (none, demoGlobals) :=
  ⟨(c5_reject_other_urls demoApp demoGlobals).1 "other-scheme://app/index.html".toList
      (by decide),
    (c5_reject_other_urls demoApp demoGlobals).2.1 "other-scheme".toList
      "app/index.html".toList (by decide) (by decide),
    (c5_reject_other_urls demoApp demoGlobals).2.2 "web/index.html".toList (by decide)⟩

/-! ## Properties of the MIME table -/

theorem tolower_tolower (c : Char) : tolower (tolower c) = tolower c := by
  by_cases h : 65 ≤ c.toNat ∧ c.toNat ≤ 90
  · obtain ⟨h1, h2⟩ := h
    have hc := Char.ofNat_toNat c
    generalize c.toNat = n at h1 h2 hc
    subst hc
    interval_cases n <;> rfl
  · have hl : tolower c = c := by
      simp only [tolower, Char.toLower, ge_iff_le]
      rw [if_neg h]
    rw [hl, hl]

theorem tolower_toUpper (c : Char) : tolower c.toUpper = tolower c := by
  by_cases h : 97 ≤ c.toNat ∧ c.toNat ≤ 122
  · obtain ⟨h1, h2⟩ := h
    have hc := Char.ofNat_toNat c
    generalize c.toNat = n at h1 h2 hc
    subst hc
    interval_cases n <;> rfl
  · have hu : c.toUpper = c := by
      simp only [Char.toUpper, ge_iff_le]
      rw [if_neg h]
    rw [hu]

theorem caseVariant_lower (p q : Str) (h : caseVariant p q = true) :
    q.map tolower = p.map tolower := by
  induction p generalizing q with
  | nil =>
    cases q with
    | nil => rfl
    | cons b q => simp [caseVariant] at h
  | cons a p ih =>
    cases q with
    | nil => simp [caseVariant] at h
    | cons b q =>
      simp only [caseVariant, Bool.and_eq_true, Bool.or_eq_true, decide_eq_true_eq] at h
      obtain ⟨hb, hrest⟩ := h
      have hhead : tolower b = tolower a := by
        rcases hb with (hb | hb) | hb
        · rw [hb]
        · rw [hb]; exact tolower_tolower a
        · rw [hb]; exact tolower_toUpper a
      simp [hhead, ih q hrest]

/-- The lambda `ends_with` decides whether `suffix` is a suffix of `str`. -/
theorem ends_with_iff (str suffix : Str) : ends_with str suffix = true ↔ suffix <:+ str := by
  constructor
  · intro h
    simp only [ends_with, ge_iff_le, Bool.and_eq_true, decide_eq_true_eq] at h
    obtain ⟨hlen, heq⟩ := h
    have hdl : (str.drop (str.length - suffix.length)).length = suffix.length := by
      rw [List.length_drop]; omega
    have htake : (str.drop (str.length - suffix.length)).take suffix.length
        = str.drop (str.length - suffix.length) :=
      List.take_of_length_le (le_of_eq hdl)
    rw [htake] at heq
    rw [← heq]
    exact List.drop_suffix _ _
  · rintro ⟨t, rfl⟩
    simp [ends_with]

/-- The chain of tests of `GetMimeType`, read on suffixes of the lower-cased
path. -/
theorem GetMimeType_eq (path : Str) :
    GetMimeType path =
      if ".html".toList <:+ path.map tolower ∨ ".htm".toList <:+ path.map tolower then
        "text/html".toList
      else if ".css".toList <:+ path.map tolower then "text/css".toList
      else if ".js".toList <:+ path.map tolower then "application/javascript".toList
      else if ".json".toList <:+ path.map tolower then "application/json".toList
      else if ".png".toList <:+ path.map tolower then "image/png".toList
      else if ".jpg".toList <:+ path.map tolower ∨ ".jpeg".toList <:+ path.map tolower then
        "image/jpeg".toList
      else if ".svg".toList <:+ path.map tolower then "image/svg+xml".toList
      else "application/octet-stream".toList := by
  simp only [GetMimeType, Bool.or_eq_true, ends_with_iff]

/-- Two lists of which neither is a suffix of the other are not both suffixes
of one list. -/
theorem suffix_disjoint (a b l : Str) (hab : ¬ a <:+ b) (hba : ¬ b <:+ a) (h : a <:+ l) :
    ¬ b <:+ l := by
  intro hb
  rcases List.suffix_or_suffix_of_suffix h hb with h1 | h1
  · exact hab h1
  · exact hba h1

/-- Claim C6: `GetMimeType` maps a path by the extension its lower-cased form
ends with: `.html` and `.htm` give `text/html`, `.css` gives `text/css`, `.js`
gives `application/javascript`, `.json` gives `application/json`, `.png` gives
`image/png`, `.jpg` and `.jpeg` give `image/jpeg`, `.svg` gives `image/svg+xml`,
every path ending in none of them gives `application/octet-stream`; and the
result for `p` is the result for every `q` that is `p` with the case of some of
its letters changed. -/
theorem c6_mime_table (p : Str) :
    ((".html".toList <:+ p.map tolower ∨ ".htm".toList <:+ p.map tolower) →
      GetMimeType p = "text/html".toList) ∧
    (".css".toList <:+ p.map tolower → GetMimeType p = "text/css".toList) ∧
    (".js".toList <:+ p.map tolower → GetMimeType p = "application/javascript".toList) ∧
    (".json".toList <:+ p.map tolower → GetMimeType p = "application/json".toList) ∧
    (".png".toList <:+ p.map tolower → GetMimeType p = "image/png".toList) ∧
    ((".jpg".toList <:+ p.map tolower ∨ ".jpeg".toList <:+ p.map tolower) →
      GetMimeType p = "image/jpeg".toList) ∧
    (".svg".toList <:+ p.map tolower → GetMimeType p = "image/svg+xml".toList) ∧
    ((∀ ext ∈ [".html", ".htm", ".css", ".js", ".json", ".png", ".jpg", ".jpeg", ".svg"],
        ¬ ext.toList <:+ p.map tolower) →
      GetMimeType p = "application/octet-stream".toList) ∧
    (∀ q : Str, caseVariant p q = true → GetMimeType q = GetMimeType p) := by
  have d : ∀ a b : Str, ¬ a <:+ b → ¬ b <:+ a → a <:+ p.map tolower →
      ¬ b <:+ p.map tolower := fun a b => suffix_disjoint a b _
  refine ⟨?_, ?_, ?_, ?_, ?_, ?_, ?_, ?_, ?_⟩
  · intro h
    rw [GetMimeType_eq, if_pos h]
  · intro h
    have n1 := d _ ".html".toList (by decide) (by decide) h
    have n2 := d _ ".htm".toList (by decide) (by decide) h
    simp only [GetMimeType_eq, n1, n2, h, or_self, if_true, if_false]
  · intro h
    have n1 := d _ ".html".toList (by decide) (by decide) h
    have n2 := d _ ".htm".toList (by decide) (by decide) h
    have n3 := d _ ".css".toList (by decide) (by decide) h
    simp only [GetMimeType_eq, n1, n2, n3, h, or_self, if_true, if_false]
  · intro h
    have n1 := d _ ".html".toList (by decide) (by decide) h
    have n2 := d _ ".htm".toList (by decide) (by decide) h
    have n3 := d _ ".css".toList (by decide) (by decide) h
    have n4 := d _ ".js".toList (by decide) (by decide) h
    simp only [GetMimeType_eq, n1, n2, n3, n4, h, or_self, if_true, if_false]
  · intro h
    have n1 := d _ ".html".toList (by decide) (by decide) h
    have n2 := d _ ".htm".toList (by decide) (by decide) h
    have n3 := d _ ".css".toList (by decide) (by decide) h
    have n4 := d _ ".js".toList (by decide) (by decide) h
    have n5 := d _ ".json".toList (by decide) (by decide) h
    simp only [GetMimeType_eq, n1, n2, n3, n4, n5, h, or_self, if_true, if_false]
  · intro h
    have n1 : ¬ ".html".toList <:+ p.map tolower := by
      rcases h with h | h <;> exact d _ _ (by decide) (by decide) h
    have n2 : ¬ ".htm".toList <:+ p.map tolower := by
      rcases h with h | h <;> exact d _ _ (by decide) (by decide) h
    have n3 : ¬ ".css".toList <:+ p.map tolower := by
      rcases h with h | h <;> exact d _ _ (by decide) (by decide) h
    have n4 : ¬ ".js".toList <:+ p.map tolower := by
      rcases h with h | h <;> exact d _ _ (by decide) (by decide) h
    have n5 : ¬ ".json".toList <:+ p.map tolower := by
      rcases h with h | h <;> exact d _ _ (by decide) (by decide) h
    have n6 : ¬ ".png".toList <:+ p.map tolower := by
      rcases h with h | h <;> exact d _ _ (by decide) (by decide) h
    simp only [GetMimeType_eq, n1, n2, n3, n4, n5, n6, h, or_self, if_true, if_false]
  · intro h
    have n1 := d _ ".html".toList (by decide) (by decide) h
    have n2 := d _ ".htm".toList (by decide) (by decide) h
    have n3 := d _ ".css".toList (by decide) (by decide) h
    have n4 := d _ ".js".toList (by decide) (by decide) h
    have n5 := d _ ".json".toList (by decide) (by decide) h
    have n6 := d _ ".png".toList (by decide) (by decide) h
    have n7 := d _ ".jpg".toList (by decide) (by decide) h
    have n8 := d _ ".jpeg".toList (by decide) (by decide) h
    simp only [GetMimeType_eq, n1, n2, n3, n4, n5, n6, n7, n8, h, or_self, if_true, if_false]
  · intro h
    have n1 := h ".html" (by simp)
    have n2 := h ".htm" (by simp)
    have n3 := h ".css" (by simp)
    have n4 := h ".js" (by simp)
    have n5 := h ".json" (by simp)
    have n6 := h ".png" (by simp)
    have n7 := h ".jpg" (by simp)
    have n8 := h ".jpeg" (by simp)
    have n9 := h ".svg" (by simp)
    simp only [GetMimeType_eq, n1, n2, n3, n4, n5, n6, n7, n8, n9, or_self, if_false]
  · intro q h
    simp only [GetMimeType, caseVariant_lower p q h]

/-- Claim C6 at concrete paths: an upper-case `.PNG`, an unknown `.bin`, a
`.JS` that is not taken for `.json`, and a case variant of `/index.html`. -/
theorem c6_mime_table_witness :
    GetMimeType "/img/Logo.PNG".toList = "image/png".toList ∧
    GetMimeType "/data.bin".toList = "application/octet-stream".toList ∧
    GetMimeType "/app.JS".toList = "application/javascript".toList ∧
    GetMimeType "/photo.jpeg".toList = "image/jpeg".toList ∧
    GetMimeType "/INDEX.Html".toList = GetMimeType "/index.html".toList :=
  ⟨(c6_mime_table "/img/Logo.PNG".toList).2.2.2.2.1 (by decide),
    (c6_mime_table "/data.bin".toList).2.2.2.2.2.2.2.1 (by decide),
    (c6_mime_table "/app.JS".toList).2.2.1 (by decide),
    (c6_mime_table "/photo.jpeg".toList).2.2.2.2.2.1 (Or.inr (by decide)),
    (c6_mime_table "/index.html".toList).2.2.2.2.2.2.2.2 "/INDEX.Html".toList (by decide)⟩

/-! ## Progress of the readiness machine -/

/-- The clamp of `SetProgress` on a finite value. -/
theorem clamp_fin (q : ℚ) :
    F32.stdMax F32.lit0_0 (F32.stdMin F32.lit1_0 (F32.fin q)) = F32.fin (max 0 (min 1 q)) := by
  by_cases h1 : q < 1
  · have hmin : min 1 q = q := min_eq_right h1.le
    by_cases h0 : 0 < q
    · simp [F32.stdMax, F32.stdMin, F32.lit0_0, F32.lit1_0, F32.lt, h1, h0, hmin,
        max_eq_right h0.le]
    · simp [F32.stdMax, F32.stdMin, F32.lit0_0, F32.lit1_0, F32.lt, h1, h0, hmin,
        max_eq_left (not_lt.mp h0)]
  · have hmin : min 1 q = 1 := min_eq_left (not_lt.mp h1)
    simp [F32.stdMax, F32.stdMin, F32.lit0_0, F32.lit1_0, F32.lt, h1, hmin]

/-- The clamp of `SetProgress` lands between 0 and 1 for every input, NaN and
the infinities included. -/
theorem clamp_range (v : F32) :
    ∃ q : ℚ, F32.stdMax F32.lit0_0 (F32.stdMin F32.lit1_0 v) = F32.fin q ∧ 0 ≤ q ∧ q ≤ 1 := by
  cases v with
  | nan => exact ⟨1, by simp [F32.stdMax, F32.stdMin, F32.lit0_0, F32.lit1_0, F32.lt], by norm_num, le_refl _⟩
  | ninf => exact ⟨0, by simp [F32.stdMax, F32.stdMin, F32.lit0_0, F32.lit1_0, F32.lt], le_refl _, by norm_num⟩
  | pinf => exact ⟨1, by simp [F32.stdMax, F32.stdMin, F32.lit0_0, F32.lit1_0, F32.lt], by norm_num, le_refl _⟩
  | fin q =>
    refine ⟨max 0 (min 1 q), clamp_fin q, le_max_left _ _, ?_⟩
    exact max_le (by norm_num) (min_le_left _ _)

/-- The progress stored by `SetState`. -/
theorem setState_progress (s : LoadingState) (msg : Str) (m : LoadingManager) :
    (m.SetState s msg).progress_ =
      match fixedProgress s with
      | some v => F32.stdMax F32.lit0_0 (F32.stdMin F32.lit1_0 v)
      | none => m.progress_ := by
  obtain ⟨st, p, sm, em, w, cl, ws, cs⟩ := m
  cases s <;> cases w <;> cases cl <;> cases ws <;>
    simp [LoadingManager.SetState, LoadingManager.SetProgress,
      LoadingManager.ShowWindowWhenReady, LoadingManager.GetState, fixedProgress]

/-- The progress stored by one step. -/
theorem step_progress (op : Op) (m : LoadingManager) :
    (step op m).progress_ =
      match op with
      | .SetState s _ =>
        (match fixedProgress s with
          | some v => F32.stdMax F32.lit0_0 (F32.stdMin F32.lit1_0 v)
          | none => m.progress_)
      | .SetProgress v => F32.stdMax F32.lit0_0 (F32.stdMin F32.lit1_0 v)
      | _ => m.progress_ := by
  cases op with
  | SetState s msg => exact setState_progress s msg m
  | SetProgress v => rfl
  | SetWindow w => rfl
  | ShowWindowWhenReady =>
    obtain ⟨st, p, sm, em, w, cl, ws, cs⟩ := m
    cases w <;> cases st <;> cases ws <;>
      simp [step, LoadingManager.ShowWindowWhenReady, LoadingManager.GetState]
  | OnContentLoaded =>
    obtain ⟨st, p, sm, em, w, cl, ws, cs⟩ := m
    cases w <;> cases st <;> cases ws <;>
      simp [step, LoadingManager.OnContentLoaded, LoadingManager.ShowWindowWhenReady,
        LoadingManager.GetState]
  | SetError e =>
    simp [step, LoadingManager.SetError, setState_progress, fixedProgress]

theorem step_progress_range (op : Op) (m : LoadingManager)
    (h : ∃ q : ℚ, m.progress_ = F32.fin q ∧ 0 ≤ q ∧ q ≤ 1) :
    ∃ q : ℚ, (step op m).progress_ = F32.fin q ∧ 0 ≤ q ∧ q ≤ 1 := by
  rw [step_progress]
  cases op with
  | SetState s msg =>
    cases hs : fixedProgress s with
    | some v => simpa only [hs] using clamp_range v
    | none => simpa only [hs] using h
  | SetProgress v => exact clamp_range v
  | SetWindow w => exact h
  | ShowWindowWhenReady => exact h
  | OnContentLoaded => exact h
  | SetError e => exact h

/-- Claim C11: for every input value `v`, `SetProgress(v)` stores
`std::max(0.0f, std::min(1.0f, v))`, which for a finite `v` is the value
`max(0, min(1, v))`, for minus infinity 0, and for plus infinity and NaN 1; so
`SetProgress(-1.0)` stores 0.0 and `SetProgress(5.0)` stores 1.0, and in every
state reachable from the initial state the stored progress is a finite value
between 0 and 1. -/
theorem c11_progress_clamped (m : LoadingManager) :
    (∀ v : F32, (m.SetProgress v).GetProgress =
        F32.stdMax F32.lit0_0 (F32.stdMin F32.lit1_0 v)) ∧
    (∀ q : ℚ, (m.SetProgress (F32.fin q)).GetProgress = F32.fin (max 0 (min 1 q))) ∧
    (m.SetProgress F32.ninf).GetProgress = F32.fin 0 ∧
    (m.SetProgress F32.pinf).GetProgress = F32.fin 1 ∧
    (m.SetProgress F32.nan).GetProgress = F32.fin 1 ∧
    (m.SetProgress (F32.fin (-1))).GetProgress = F32.fin 0 ∧
    (m.SetProgress (F32.fin 5)).GetProgress = F32.fin 1 ∧
    (∀ ops : List Op, ∃ q : ℚ,
      (run ops LoadingManager.init).GetProgress = F32.fin q ∧ 0 ≤ q ∧ q ≤ 1) := by
  refine ⟨fun _ => rfl, fun q => clamp_fin q, ?_, ?_, ?_, ?_, ?_, ?_⟩
  · simp [LoadingManager.SetProgress, LoadingManager.GetProgress, F32.stdMax, F32.stdMin,
      F32.lit0_0, F32.lit1_0, F32.lt]
  · simp [LoadingManager.SetProgress, LoadingManager.GetProgress, F32.stdMax, F32.stdMin,
      F32.lit0_0, F32.lit1_0, F32.lt]
  · simp [LoadingManager.SetProgress, LoadingManager.GetProgress, F32.stdMax, F32.stdMin,
      F32.lit0_0, F32.lit1_0, F32.lt]
  · have h := clamp_fin (-1)
    rw [show max (0 : ℚ) (min 1 (-1)) = 0 by norm_num] at h
    exact h
  · have h := clamp_fin 5
    rw [show max (0 : ℚ) (min 1 5) = 1 by norm_num] at h
    exact h
  · intro ops
    induction ops using List.reverseRecOn with
    | nil => exact ⟨0, rfl, le_refl _, by norm_num⟩
    | append_singleton ops op ih =>
      rw [run_snoc]
      exact step_progress_range op _ ih

/-- The clamp of `SetProgress` leaves the progress literals of `SetState` as
they are. -/
theorem clamp_fixed (s : LoadingState) (v : F32) (h : fixedProgress s = some v) :
    F32.stdMax F32.lit0_0 (F32.stdMin F32.lit1_0 v) = v := by
  cases s
  case ERROR_STATE => simp [fixedProgress] at h
  all_goals
    simp only [fixedProgress, Option.some.injEq] at h
    subst h
    exact clamp_of_unit _ (by norm_num) (by norm_num)

/-- The progress literals grow with the state. -/
theorem fixedProgress_mono (a b : LoadingState) (hb : b ≠ .ERROR_STATE)
    (h : stateRank a ≤ stateRank b) (qa : ℚ) (ha : fixedProgress a = some (F32.fin qa)) :
    ∃ qb : ℚ, fixedProgress b = some (F32.fin qb) ∧ qa ≤ qb := by
  cases b
  case ERROR_STATE => exact absurd rfl hb
  all_goals
    cases a
    case ERROR_STATE => simp [fixedProgress] at ha
    all_goals
      first
        | (simp [stateRank] at h; done)
        | (simp only [fixedProgress, F32.lit0_1, F32.lit0_3, F32.lit0_5, F32.lit0_8,
            F32.lit1_0, Option.some.injEq, F32.fin.injEq] at ha ⊢
           subst ha
           exact ⟨_, rfl, by norm_num⟩)

/-- Along a forward-only sequence no step lowers the stored progress. -/
theorem forward_run_monotone (pre : List Op) :
    ∀ (last : LoadingState) (m : LoadingManager) (op : Op),
      (∃ q qs : ℚ, m.progress_ = F32.fin q ∧ fixedProgress last = some (F32.fin qs) ∧ q ≤ qs) →
      forwardOps last (pre ++ [op]) = true →
      ∃ q q2 : ℚ, (run pre m).progress_ = F32.fin q ∧
        (step op (run pre m)).progress_ = F32.fin q2 ∧ q ≤ q2 := by
  induction pre with
  | nil =>
    intro last m op ⟨q, qs, hq, hlast, hle⟩ hfwd
    rw [run_nil, step_progress]
    cases op with
    | SetState s msg =>
      by_cases hs : s = .ERROR_STATE
      · subst hs
        exact ⟨q, q, hq, by simpa [fixedProgress] using hq, le_refl _⟩
      · simp only [List.nil_append, forwardOps, hs, if_false, Bool.and_true,
          decide_eq_true_eq] at hfwd
        obtain ⟨qb, hb, hab⟩ := fixedProgress_mono last s hs hfwd qs hlast
        refine ⟨q, qb, hq, ?_, hle.trans hab⟩
        simp only [hb]
        exact clamp_fixed s _ hb
    | SetProgress v => simp [forwardOps] at hfwd
    | SetWindow w => exact ⟨q, q, hq, hq, le_refl _⟩
    | ShowWindowWhenReady => exact ⟨q, q, hq, hq, le_refl _⟩
    | OnContentLoaded => exact ⟨q, q, hq, hq, le_refl _⟩
    | SetError e => exact ⟨q, q, hq, hq, le_refl _⟩
  | cons o pre ih =>
    intro last m op ⟨q, qs, hq, hlast, hle⟩ hfwd
    rw [run_cons]
    have hstep := step_progress o m
    cases o with
    | SetState s msg =>
      by_cases hs : s = .ERROR_STATE
      · subst hs
        simp only [List.cons_append, forwardOps, if_true] at hfwd
        refine ih last _ op ⟨q, qs, ?_, hlast, hle⟩ hfwd
        rw [hstep]
        simpa [fixedProgress] using hq
      · simp only [List.cons_append, forwardOps, hs, if_false, Bool.and_eq_true,
          decide_eq_true_eq] at hfwd
        obtain ⟨qb, hb, _⟩ := fixedProgress_mono last s hs hfwd.1 qs hlast
        refine ih s _ op ⟨qb, qb, ?_, hb, le_refl _⟩ hfwd.2
        rw [hstep]
        simp only [hb]
        exact clamp_fixed s _ hb
    | SetProgress v => simp [forwardOps] at hfwd
    | SetWindow w =>
      exact ih last _ op ⟨q, qs, hstep.trans hq, hlast, hle⟩ (by simpa [forwardOps] using hfwd)
    | ShowWindowWhenReady =>
      exact ih last _ op ⟨q, qs, hstep.trans hq, hlast, hle⟩ (by simpa [forwardOps] using hfwd)
    | OnContentLoaded =>
      exact ih last _ op ⟨q, qs, hstep.trans hq, hlast, hle⟩ (by simpa [forwardOps] using hfwd)
    | SetError e =>
      exact ih last _ op ⟨q, qs, hstep.trans hq, hlast, hle⟩ (by simpa [forwardOps] using hfwd)

/-- Claim C12, as stated, fails: `SetState(INITIALIZING)` after
`SetState(READY)` lowers the stored progress from `1.0f` to `0.1f`, and
`SetProgress(0.1f)` after `SetProgress(0.5f)` lowers it from `0.5f` to `0.1f`. -/
theorem c12_progress_lowered :
    (run [.SetState .READY []] LoadingManager.init).GetProgress = F32.lit1_0 ∧
    (run [.SetState .READY [], .SetState .INITIALIZING []] LoadingManager.init).GetProgress
      = F32.lit0_1 ∧
    F32.lt F32.lit0_1 F32.lit1_0 = true ∧
    (run [.SetProgress F32.lit0_5] LoadingManager.init).GetProgress = F32.lit0_5 ∧
    (run [.SetProgress F32.lit0_5, .SetProgress F32.lit0_1] LoadingManager.init).GetProgress
      = F32.lit0_1 ∧
    F32.lt F32.lit0_1 F32.lit0_5 = true := by
  have e1 := clamp_fixed .INITIALIZING _ rfl
  have e5 := clamp_fixed .CREATING_WINDOW _ rfl
  have e10 := clamp_fixed .READY _ rfl
  refine ⟨?_, ?_, ?_, ?_, ?_, ?_⟩
  · simp only [run_cons, run_nil, LoadingManager.GetProgress, step_progress, fixedProgress, e10]
  · simp only [run_cons, run_nil, LoadingManager.GetProgress, step_progress, fixedProgress, e1]
  · simp only [F32.lt, F32.lit0_1, F32.lit1_0, decide_eq_true_eq]; norm_num
  · simp only [run_cons, run_nil, LoadingManager.GetProgress, step_progress]
    exact e5
  · simp only [run_cons, run_nil, LoadingManager.GetProgress, step_progress]
    exact e1
  · simp only [F32.lt, F32.lit0_1, F32.lit0_5, decide_eq_true_eq]; norm_num

/-- Claim C12, amended: along every sequence of operations from the initial
state that has no `SetProgress` call and whose `SetState` calls name
`ERROR_STATE` or non-error states in the order of the `enum` (none before the
one named last), the progress stored after each operation is a finite value
greater than or equal to the one stored before it. -/
theorem c12_progress_monotone_forward (pre : List Op) (op : Op)
    (hforward : forwardOps .INITIALIZING (pre ++ [op]) = true) :
    ∃ q q2 : ℚ, (run pre LoadingManager.init).GetProgress = F32.fin q ∧
      (run (pre ++ [op]) LoadingManager.init).GetProgress = F32.fin q2 ∧ q ≤ q2 := by
  rw [run_snoc]
  exact forward_run_monotone pre .INITIALIZING LoadingManager.init op
    ⟨0, _, rfl, rfl, by norm_num⟩ hforward

/-- Claim C12, amended, at a concrete run: the whole startup in order, with
the window and content calls and an error at the end. -/
theorem c12_progress_monotone_forward_witness :
    ∃ q q2 : ℚ,
      (run [.SetState .INITIALIZING [], .SetState .PRELOADING_RESOURCES [], .SetWindow (some 1),
          .SetState .CREATING_WINDOW [], .SetState .LOADING_CONTENT [], .OnContentLoaded]
        LoadingManager.init).GetProgress = F32.fin q ∧
      (run ([.SetState .INITIALIZING [], .SetState .PRELOADING_RESOURCES [], .SetWindow (some 1),
          .SetState .CREATING_WINDOW [], .SetState .LOADING_CONTENT [], .OnContentLoaded] ++
          [.SetState .READY []])
        LoadingManager.init).GetProgress = F32.fin q2 ∧ q ≤ q2 :=
  c12_progress_monotone_forward
    [.SetState .INITIALIZING [], .SetState .PRELOADING_RESOURCES [], .SetWindow (some 1),
      .SetState .CREATING_WINDOW [], .SetState .LOADING_CONTENT [], .OnContentLoaded]
    (.SetState .READY []) (by decide)

/-! ## Recording the window -/

/-- Claim C17: for every state of the machine (so also with `READY` and the
content loaded) and every `w`, after `SetWindow(w)` the window reference is `w`,
no call has been made on a window, and state, message, progress,
`content_loaded_` and `window_shown_` are as before. -/
theorem c17_setWindow_frame (m : LoadingManager) (w : Option CefWindow) :
    (m.SetWindow w).window_ = w ∧
    (m.SetWindow w).calls = m.calls ∧
    (m.SetWindow w).showsExecuted = m.showsExecuted ∧
    (m.SetWindow w).GetState = m.GetState ∧
    (m.SetWindow w).GetStateMessage = m.GetStateMessage ∧
    (m.SetWindow w).GetProgress = m.GetProgress ∧
    (m.SetWindow w).content_loaded_ = m.content_loaded_ ∧
    (m.SetWindow w).window_shown_ = m.window_shown_ ∧
    (m.SetWindow w).error_message_ = m.error_message_ :=
  ⟨rfl, rfl, rfl, rfl, rfl, rfl, rfl, rfl, rfl⟩

/-- Claim C18: from any state with `GetState() == READY`, the content loaded,
the window hidden and no window recorded, `SetState(READY)` and
`OnContentLoaded()` make no window call; after `SetWindow(w)` with a non-null
`w`, the next `SetState(READY)` call, and likewise the next `OnContentLoaded()`
call, centres and shows `w` and sets `window_shown_` to true. -/
theorem c18_show_retried (m : LoadingManager) (w : CefWindow) (msg : Str)
    (hstate : m.GetState = .READY) (hcontent : m.content_loaded_ = true)
    (hhidden : m.window_shown_ = false) (hwindow : m.window_ = none) :
    ((m.SetState .READY msg).window_shown_ = false ∧
      (m.SetState .READY msg).calls = m.calls) ∧
    (m.OnContentLoaded.window_shown_ = false ∧ m.OnContentLoaded.calls = m.calls) ∧
    (((m.SetWindow (some w)).SetState .READY msg).window_shown_ = true ∧
      ((m.SetWindow (some w)).SetState .READY msg).calls =
        m.calls ++ [WindowCall.CenterWindow w 1200 800, WindowCall.Show w]) ∧
    ((m.SetWindow (some w)).OnContentLoaded.window_shown_ = true ∧
      (m.SetWindow (some w)).OnContentLoaded.calls =
        m.calls ++ [WindowCall.CenterWindow w 1200 800, WindowCall.Show w]) := by
  obtain ⟨st, p, sm, em, w0, cl, ws, cs⟩ := m
  simp only [LoadingManager.GetState] at hstate hcontent hhidden hwindow
  subst hstate hcontent hhidden hwindow
  simp [LoadingManager.SetState, LoadingManager.SetProgress, LoadingManager.SetWindow,
    LoadingManager.OnContentLoaded, LoadingManager.ShowWindowWhenReady,
    LoadingManager.GetState]

/-- Claim C18 at a concrete state: the content loads and `READY` is set before
any window is recorded, then window 1 is recorded. -/
theorem c18_show_retried_witness :
    (((run [.OnContentLoaded, .SetState .READY []] LoadingManager.init).SetWindow
        (some 1)).SetState .READY []).window_shown_ = true ∧
    ((run [.OnContentLoaded, .SetState .READY []] LoadingManager.init).SetWindow
        (some 1)).OnContentLoaded.window_shown_ = true :=
  ⟨(c18_show_retried (run [.OnContentLoaded, .SetState .READY []] LoadingManager.init) 1 []
      (by decide) (by decide) (by decide) (by decide)).2.2.1.1,
    (c18_show_retried (run [.OnContentLoaded, .SetState .READY []] LoadingManager.init) 1 []
      (by decide) (by decide) (by decide) (by decide)).2.2.2.1⟩

/-! ## Properties of the resource store -/

theorem toInt32_of_range (n : Int) (h0 : 0 ≤ n) (h1 : n < 2147483648) : toInt32 n = n := by
  unfold toInt32
  omega

/-- The counting loop of `GetPreloadStats` counts the loaded entries as long as
the count fits an `int`. -/
theorem count_loop (l : List (Str × PreloadedResource)) :
    ∀ (a : Int) (b : Nat), 0 ≤ a → a + l.length < 2147483648 →
      (l.foldl
        (fun (acc : Int × Nat) pair =>
          if pair.2.loaded then
            (toInt32 (acc.1 + 1), (acc.2 + pair.2.data.length) % 18446744073709551616)
          else acc)
        (a, b)).1 = a + (l.countP fun pair => pair.2.loaded) := by
  induction l with
  | nil => intro a b _ _; simp
  | cons e rest ih =>
    intro a b h0 h1
    simp only [List.length_cons, Nat.cast_add, Nat.cast_one] at h1
    simp only [List.foldl_cons]
    cases hl : e.2.loaded with
    | true =>
      rw [if_pos rfl, toInt32_of_range (a + 1) (by omega) (by omega),
        ih (a + 1) _ (by omega) (by omega)]
      simp only [List.countP_cons, hl, if_true]
      push_cast
      ring
    | false =>
      rw [if_neg (by simp), ih a b h0 (by omega)]
      simp [List.countP_cons, hl]

/-- Taking and releasing the free mutex leaves the globals as they were. -/
theorem unlock_lock (g : Globals) (hfree : g.g_resourceMutex = false) :
    unlockGuard { g with g_resourceMutex := true } = g := by
  obtain ⟨l, mu, ini⟩ := g
  simp only at hfree
  subst hfree
  rfl

/-- On an initialized store `InitializePreloadedResources` returns at once. -/
theorem initialize_of_initialized (app : WebApp) (g : Globals)
    (hfree : g.g_resourceMutex = false) (hinit : g.g_resourcesInitialized = true) :
    InitializePreloadedResources app g = .ok g := by
  obtain ⟨l, mu, ini⟩ := g
  simp only at hfree hinit
  subst hfree hinit
  rfl

/-- With the mutex free `InitializePreloadedResources` returns, with the store
initialized and the mutex free again. -/
theorem initialize_returns (app : WebApp) (g : Globals) (hfree : g.g_resourceMutex = false) :
    ∃ g1, InitializePreloadedResources app g = .ok g1 ∧ g1.g_resourceMutex = false ∧
      g1.g_resourcesInitialized = true := by
  obtain ⟨l, mu, ini⟩ := g
  simp only at hfree
  subst hfree
  cases ini with
  | true => exact ⟨_, rfl, rfl, rfl⟩
  | false => exact ⟨_, rfl, rfl, rfl⟩

/-- On an initialized store `GetPreloadedResource` answers from the map and
leaves the globals as they were. -/
theorem get_of_initialized (app : WebApp) (path : Str) (g : Globals)
    (hfree : g.g_resourceMutex = false) (hinit : g.g_resourcesInitialized = true) :
    GetPreloadedResource app path g =
      .ok ((match g.g_preloadedResources.lookup path with
            | some r => if r.loaded then some r else none
            | none => none), g) := by
  obtain ⟨l, mu, ini⟩ := g
  simp only at hfree hinit
  subst hfree hinit
  simp only [GetPreloadedResource, lockGuard, bind, Except.bind, pure, Except.pure,
    unlockGuard]
  cases hl : List.lookup path l with
  | none => simp [hl]
  | some r => cases hr : r.loaded <;> simp [hl, hr]

theorem storeRun_fixed (app : WebApp) (g : Globals)
    (hfree : g.g_resourceMutex = false) (hinit : g.g_resourcesInitialized = true)
    (calls : List StoreCall) : storeRun app calls g = .ok g := by
  induction calls with
  | nil => rfl
  | cons c rest ih =>
    cases c with
    | init =>
      simp only [storeRun, storeStep, initialize_of_initialized app g hfree hinit]
      exact ih
    | get path =>
      simp only [storeRun, storeStep, get_of_initialized app path g hfree hinit, Except.map]
      exact ih

/-- With the mutex free `GetPreloadStats` returns and leaves the globals as
they were. -/
theorem stats_eq (g : Globals) (hfree : g.g_resourceMutex = false) :
    GetPreloadStats g =
      .ok ({ totalResources := toInt32 g.g_preloadedResources.length
             loadedResources :=
               (g.g_preloadedResources.foldl
                 (fun (acc : Int × Nat) pair =>
                   if pair.2.loaded then
                     (toInt32 (acc.1 + 1),
                       (acc.2 + pair.2.data.length) % 18446744073709551616)
                   else acc)
                 (0, 0)).1
             totalBytes :=
               (g.g_preloadedResources.foldl
                 (fun (acc : Int × Nat) pair =>
                   if pair.2.loaded then
                     (toInt32 (acc.1 + 1),
                       (acc.2 + pair.2.data.length) % 18446744073709551616)
                   else acc)
                 (0, 0)).2
             allLoaded :=
               decide ((g.g_preloadedResources.foldl
                 (fun (acc : Int × Nat) pair =>
                   if pair.2.loaded then
                     (toInt32 (acc.1 + 1),
                       (acc.2 + pair.2.data.length) % 18446744073709551616)
                   else acc)
                 (0, 0)).1 = toInt32 g.g_preloadedResources.length) &&
               decide (toInt32 g.g_preloadedResources.length > 0) }, g) := by
  simp only [GetPreloadStats, lockGuard, hfree, bind, Except.bind, pure, Except.pure]
  simp only [Bool.false_eq_true, if_false, unlock_lock g hfree]

/-- Claim C13: for every content of the resource store with fewer than 2^31
entries (the range of the `int` counters), `GetPreloadStats()` called with the
mutex free returns statistics in which `totalResources` is the number of
entries, `loadedResources` the number of entries whose `loaded` flag is true,
and `allLoaded` is true if and only if the store holds at least one resource
and every resource in it has `loaded == true`. -/
theorem c13_allLoaded_iff (g : Globals) (hfree : g.g_resourceMutex = false)
    (hsize : g.g_preloadedResources.length < 2147483648) :
    ∃ stats : PreloadStats, GetPreloadStats g = .ok (stats, g) ∧
      stats.totalResources = g.g_preloadedResources.length ∧
      stats.loadedResources = (g.g_preloadedResources.countP fun pair => pair.2.loaded) ∧
      (stats.allLoaded = true ↔
        0 < g.g_preloadedResources.length ∧
          ∀ pair ∈ g.g_preloadedResources, pair.2.loaded = true) := by
  have hcount := count_loop g.g_preloadedResources 0 0 (le_refl _) (by omega)
  have htotal : toInt32 g.g_preloadedResources.length = g.g_preloadedResources.length :=
    toInt32_of_range _ (by omega) (by omega)
  refine ⟨_, stats_eq g hfree, ?_, ?_, ?_⟩
  · exact htotal
  · simpa using hcount
  · simp only [hcount, htotal, zero_add, Bool.and_eq_true, decide_eq_true_eq, gt_iff_lt,
      Nat.cast_inj, Nat.cast_pos, List.countP_eq_length]
    exact ⟨fun h => ⟨h.2, h.1⟩, fun h => ⟨h.2, h.1⟩⟩

/-- Claim C13 at a concrete store: one loaded entry gives `allLoaded`, the
empty store does not. -/
theorem c13_allLoaded_iff_witness :
    (∃ stats : PreloadStats, GetPreloadStats demoGlobals = .ok (stats, demoGlobals) ∧
      stats.totalResources = demoGlobals.g_preloadedResources.length ∧
      stats.loadedResources =
        (demoGlobals.g_preloadedResources.countP fun pair => pair.2.loaded) ∧
      (stats.allLoaded = true ↔
        0 < demoGlobals.g_preloadedResources.length ∧
          ∀ pair ∈ demoGlobals.g_preloadedResources, pair.2.loaded = true)) ∧
    (GetPreloadStats demoGlobals).map (·.1.allLoaded) = .ok true ∧
    (GetPreloadStats { demoGlobals with g_preloadedResources := [] }).map (·.1.allLoaded)
      = .ok false :=
  ⟨c13_allLoaded_iff demoGlobals (by decide) (by decide), by decide, by decide⟩

/-- Claim C14: once `InitializePreloadedResources` has run (called with the
mutex free, it returns), every further sequence of `InitializePreloadedResources`
and `GetPreloadedResource` calls returns and leaves the globals of the store,
the mapping included, exactly as they were; so `n + 1` initializations in a row
end in the state reached by the first, every `GetPreloadedResource(path)` call
gives the same answer however often it is repeated, and `GetPreloadStats()`
reads the same store after each of these calls. -/
theorem c14_initialization_idempotent (app : WebApp) (g : Globals)
    (hfree : g.g_resourceMutex = false) :
    ∃ g1, InitializePreloadedResources app g = .ok g1 ∧
      (∀ calls : List StoreCall, storeRun app calls g1 = .ok g1) ∧
      (∀ n : Nat, storeRun app (List.replicate (n + 1) StoreCall.init) g = .ok g1) ∧
      (∀ path : Str, ∃ r, GetPreloadedResource app path g1 = .ok (r, g1)) ∧
      (∃ stats, GetPreloadStats g1 = .ok (stats, g1)) := by
  obtain ⟨g1, hg1, hfree1, hinit1⟩ := initialize_returns app g hfree
  refine ⟨g1, hg1, storeRun_fixed app g1 hfree1 hinit1, ?_, ?_, ⟨_, stats_eq g1 hfree1⟩⟩
  · intro n
    simp only [List.replicate_succ, storeRun, storeStep, hg1]
    exact storeRun_fixed app g1 hfree1 hinit1 _
  · intro path
    exact ⟨_, get_of_initialized app path g1 hfree1 hinit1⟩

/-- Claim C14 at the start of the program, with a three-byte document. -/
theorem c14_initialization_idempotent_witness :
    ∃ g1, InitializePreloadedResources demoApp Globals.init = .ok g1 ∧
      (∀ calls : List StoreCall, storeRun demoApp calls g1 = .ok g1) ∧
      (∀ n : Nat, storeRun demoApp (List.replicate (n + 1) StoreCall.init) Globals.init
        = .ok g1) ∧
      (∀ path : Str, ∃ r, GetPreloadedResource demoApp path g1 = .ok (r, g1)) ∧
      (∃ stats, GetPreloadStats g1 = .ok (stats, g1)) :=
  c14_initialization_idempotent demoApp Globals.init rfl

/-- Claim C15 fails on the code: on the store as it is at program start
(`g_resourcesInitialized == false`, mutex free), `GetPreloadedResource(path)`
takes `g_resourceMutex` and then calls `InitializePreloadedResources`, which
takes the same `std::mutex` again, so the call does not return; the sibling
`LoadBinaryResource` makes the same lazy call without holding the mutex and
returns with the store initialized. -/
theorem c15_lazy_initialization_relocks (app : WebApp) (path : Str) :
    GetPreloadedResource app path Globals.init = .error Fault.relock ∧
    ∃ data g1, LoadBinaryResource app IDR_HTML_INDEX Globals.init = .ok (data, g1) ∧
      g1.g_resourcesInitialized = true ∧ g1.g_resourceMutex = false := by
  refine ⟨rfl, ?_⟩
  obtain ⟨g1, hg1, hfree1, hinit1⟩ := initialize_returns app Globals.init rfl
  refine ⟨(GetWebAppHTML app).getD [], g1, ?_, hinit1, hfree1⟩
  simp [LoadBinaryResource, Globals.init, bind, Except.bind, pure, Except.pure] at hg1 ⊢
  simp [hg1]

/-! ## The fallback of the scheme handler -/

/-- For a URL that begins with `miko://app`, `Create` is its second part run on
`/index.html`. -/
theorem Create_eq_CreateFrom (app : WebApp) (g : Globals) (rest : Str) :
    Create app (appUrl ++ rest) g = CreateFrom app indexPath g := by
  have hf : find appUrl (appUrl ++ rest) = some 0 :=
    (find_eq_zero_iff _ _).mpr ⟨rest, rfl⟩
  unfold Create CreateFrom
  simp only [hf, substr_appUrl, ne_eq, not_true_eq_false, ↓reduceIte, bind, Except.bind,
    actualPath_eq]

theorem GetResourceId_eq (path : Str) :
    GetResourceId path = if path = indexPath then IDR_HTML_INDEX else -1 := by
  by_cases h : path = indexPath
  · subst h
    simp [GetResourceId, resourceMap, List.lookup]
  · have hb : (path == indexPath) = false := by simpa using h
    simp [GetResourceId, resourceMap, List.lookup, hb, h]

/-- On an initialized store `LoadBinaryResource` returns the document for
`IDR_HTML_INDEX` and nothing for any other identifier. -/
theorem load_of_initialized (app : WebApp) (id : Int) (g : Globals)
    (hinit : g.g_resourcesInitialized = true) :
    LoadBinaryResource app id g =
      .ok (if id = IDR_HTML_INDEX then (GetWebAppHTML app).getD [] else [], g) := by
  by_cases h : id = IDR_HTML_INDEX <;>
    simp [LoadBinaryResource, hinit, h, bind, Except.bind, pure, Except.pure]

/-- The second part of `Create` on an initialized store that has no loaded
entry for the path. -/
theorem CreateFrom_miss (app : WebApp) (path : Str) (g : Globals)
    (hfree : g.g_resourceMutex = false) (hinit : g.g_resourcesInitialized = true)
    (hmiss : ∀ r, g.g_preloadedResources.lookup path = some r → r.loaded = false) :
    CreateFrom app path g =
      if path = indexPath ∧ (GetWebAppHTML app).getD [] ≠ [] then
        .ok (some { mime_type := GetMimeType path,
                    stream := { data := (GetWebAppHTML app).getD [] } }, g)
      else .ok (none, g) := by
  have hget : GetPreloadedResource app path g = .ok (none, g) := by
    rw [get_of_initialized app path g hfree hinit]
    cases hl : g.g_preloadedResources.lookup path with
    | none => rfl
    | some r => simp [hmiss r hl]
  unfold CreateFrom
  simp only [hget, bind, Except.bind, pure, Except.pure, GetResourceId_eq,
    load_of_initialized app _ g hinit]
  by_cases hp : path = indexPath
  · subst hp
    cases hd : (GetWebAppHTML app).getD [] with
    | nil => simp [IDR_HTML_INDEX, hd]
    | cons b t => simp [IDR_HTML_INDEX, hd, CreateResourceReader]
  · simp [hp]

/-- Claim C16, as stated, fails: on an initialized store without an entry for
`/index.html`, in a build whose compiled-in document is null, the static table
has the identifier `IDR_HTML_INDEX` for the canonical path and `Create` still
returns `nullptr`. -/
theorem c16_identifier_without_bytes :
    GetResourceId indexPath = IDR_HTML_INDEX ∧
    GetResourceId indexPath ≠ -1 ∧
    GetPreloadedResource emptyApp indexPath emptyStore = .ok (none, emptyStore) ∧
    Create emptyApp "miko://app/index.html".toList emptyStore = .ok (none, emptyStore) := by
  decide

/-- Claim C16, amended: on an initialized store that has no loaded entry for
the canonical path, the rest of `Create` falls back to the static table: if the
table has no identifier for the path it returns `nullptr`; if it has one and the
bytes materialized from the compiled-in document are not empty, it returns a
handler over those bytes with the MIME type of the path; if it has one and the
bytes are empty, it returns `nullptr`. For every URL that begins with
`miko://app` this is what `Create` does with the path `/index.html`. -/
theorem c16_fallback_to_table (app : WebApp) (path : Str) (g : Globals)
    (hfree : g.g_resourceMutex = false) (hinit : g.g_resourcesInitialized = true)
    (hmiss : ∀ r, g.g_preloadedResources.lookup path = some r → r.loaded = false) :
    (GetResourceId path = -1 → CreateFrom app path g = .ok (none, g)) ∧
    (GetResourceId path ≠ -1 → (GetWebAppHTML app).getD [] ≠ [] →
      CreateFrom app path g =
        .ok (some { mime_type := GetMimeType path,
                    stream := { data := (GetWebAppHTML app).getD [] } }, g)) ∧
    (GetResourceId path ≠ -1 → (GetWebAppHTML app).getD [] = [] →
      CreateFrom app path g = .ok (none, g)) ∧
    (path = indexPath → ∀ rest : Str,
      Create app (appUrl ++ rest) g = CreateFrom app path g) := by
  have hc := CreateFrom_miss app path g hfree hinit hmiss
  have hid := GetResourceId_eq path
  refine ⟨?_, ?_, ?_, ?_⟩
  · intro h
    have hp : path ≠ indexPath := by
      intro hp
      rw [if_pos hp] at hid
      rw [hid] at h
      exact absurd h (by decide)
    rw [hc, if_neg (fun hx => hp hx.1)]
  · intro h hd
    have hp : path = indexPath := by
      by_contra hp
      rw [if_neg hp] at hid
      exact h hid
    rw [hc, if_pos ⟨hp, hd⟩]
  · intro _ hd
    rw [hc, if_neg (fun hx => hx.2 hd)]
  · intro hp rest
    rw [hp]
    exact Create_eq_CreateFrom app g rest

/-- Claim C16, amended, at concrete inputs: an unknown path, the index path
with a three-byte document, and the index path without a document. -/
theorem c16_fallback_to_table_witness :
    CreateFrom demoApp "/other.css".toList emptyStore = .ok (none, emptyStore) ∧
    CreateFrom demoApp indexPath emptyStore =
      .ok (some { mime_type := GetMimeType indexPath,
                  stream := { data := (GetWebAppHTML demoApp).getD [] } }, emptyStore) ∧
    CreateFrom emptyApp indexPath emptyStore = .ok (none, emptyStore) ∧
    Create demoApp (appUrl ++ "/other.css".toList) emptyStore
      = CreateFrom demoApp indexPath emptyStore :=
  ⟨(c16_fallback_to_table demoApp "/other.css".toList emptyStore rfl rfl
      (by decide)).1 (by decide),
    (c16_fallback_to_table demoApp indexPath emptyStore rfl rfl (by decide)).2.1
      (by decide) (by decide),
    (c16_fallback_to_table emptyApp indexPath emptyStore rfl rfl (by decide)).2.2.1
      (by decide) (by decide),
    (c16_fallback_to_table demoApp indexPath emptyStore rfl rfl (by decide)).2.2.2
      rfl "/other.css".toList⟩

/-- The globals after the first `InitializePreloadedResources` of the program. -/
theorem initialize_at_start (app : WebApp) :
    InitializePreloadedResources app Globals.init =
      .ok (if (GetWebAppHTML app).getD [] = [] then emptyStore
           else { g_preloadedResources :=
                    [(indexPath, { data := (GetWebAppHTML app).getD []
                                   mimeType := GetMimeType indexPath
                                   loaded := true })]
                  g_resourceMutex := false
                  g_resourcesInitialized := true }) := by
  obtain ⟨html⟩ := app
  cases html with
  | none => rfl
  | some content =>
    cases content with
    | nil => rfl
    | cons b t =>
      simp [InitializePreloadedResources, lockGuard, unlockGuard, Globals.init, GetWebAppHTML,
        GetWebAppHTMLSize, mapAssign, bind, Except.bind, pure, Except.pure]

/-- Claim C20: after the first `InitializePreloadedResources` of the program,
for every request URL that begins with `miko://app`: the static table has the
identifier of the canonical path `/index.html` (the branch for a missing
identifier is not taken); when the embedded document is not empty `Create`
returns a handler over it with MIME type `text/html`; when it is empty (or
null) the store lookup misses, the fallback load is empty as well and `Create`
returns `nullptr`; and whenever the store lookup misses, the fallback load is
empty. -/
theorem c20_served_iff_document (app : WebApp) (rest : Str) :
    ∃ g1, InitializePreloadedResources app Globals.init = .ok g1 ∧
      GetResourceId indexPath = IDR_HTML_INDEX ∧
      ((GetWebAppHTML app).getD [] ≠ [] →
        Create app (appUrl ++ rest) g1 =
          .ok (some { mime_type := "text/html".toList,
                      stream := { data := (GetWebAppHTML app).getD [] } }, g1)) ∧
      ((GetWebAppHTML app).getD [] = [] →
        GetPreloadedResource app indexPath g1 = .ok (none, g1) ∧
        LoadBinaryResource app IDR_HTML_INDEX g1 = .ok ([], g1) ∧
        Create app (appUrl ++ rest) g1 = .ok (none, g1)) ∧
      (GetPreloadedResource app indexPath g1 = .ok (none, g1) →
        LoadBinaryResource app IDR_HTML_INDEX g1 = .ok ([], g1)) := by
  have hmime : GetMimeType indexPath = "text/html".toList := by decide
  have hid : GetResourceId indexPath = IDR_HTML_INDEX := by decide
  by_cases hd : (GetWebAppHTML app).getD [] = []
  · have hempty : ∀ r, emptyStore.g_preloadedResources.lookup indexPath = some r →
        r.loaded = false := by
      intro r hr
      simp [emptyStore] at hr
    have hload : LoadBinaryResource app IDR_HTML_INDEX emptyStore = .ok ([], emptyStore) := by
      rw [load_of_initialized app _ emptyStore rfl, if_pos rfl, hd]
    refine ⟨emptyStore, ?_, hid, fun h => absurd hd h, fun _ => ⟨?_, hload, ?_⟩,
      fun _ => hload⟩
    · rw [initialize_at_start, if_pos hd]
    · rw [get_of_initialized app indexPath emptyStore rfl rfl]
      rfl
    · rw [Create_eq_CreateFrom, CreateFrom_miss app indexPath emptyStore rfl rfl hempty,
        if_neg (fun hx => hx.2 hd)]
  · refine ⟨_, by rw [initialize_at_start, if_neg hd], hid, fun _ => ?_,
      fun h => absurd h hd, fun h => ?_⟩
    · rw [Create_eq_CreateFrom]
      unfold CreateFrom
      rw [get_of_initialized _ _ _ rfl rfl]
      cases hdata : (GetWebAppHTML app).getD [] with
      | nil => exact absurd hdata hd
      | cons b t =>
        simp [List.lookup, bind, Except.bind, pure, Except.pure, CreateResourceReader, hmime]
    · rw [get_of_initialized _ _ _ rfl rfl] at h
      simp [List.lookup] at h

/-- Claim C20 at two builds: a three-byte document is served for
`miko://app/anything.css`, and a build without a document is declined. -/
theorem c20_served_iff_document_witness :
    Create demoApp (appUrl ++ "/anything.css".toList) demoGlobals =
      .ok (some { mime_type := "text/html".toList,
                  stream := { data := (GetWebAppHTML demoApp).getD [] } }, demoGlobals) ∧
    Create emptyApp (appUrl ++ "/anything.css".toList) emptyStore = .ok (none, emptyStore) := by
  obtain ⟨g1, h1, _, h3, _, _⟩ := c20_served_iff_document demoApp "/anything.css".toList
  obtain ⟨g2, k1, _, _, k4, _⟩ := c20_served_iff_document emptyApp "/anything.css".toList
  have e1 : g1 = demoGlobals := by
    have : InitializePreloadedResources demoApp Globals.init = .ok demoGlobals := by decide
    rw [this] at h1
    exact (Except.ok.inj h1).symm
  have e2 : g2 = emptyStore := by
    have : InitializePreloadedResources emptyApp Globals.init = .ok emptyStore := by decide
    rw [this] at k1
    exact (Except.ok.inj k1).symm
  subst e1 e2
  exact ⟨h3 (by decide), (k4 (by decide)).2.2⟩

/-! ## Two execution contexts -/

/-- The eleven steps of the `SetState` context, run without interruption, are
the call `SetState(READY, message)`. -/
theorem setState_steps (message : Str) (r : Race) (hpc : r.pcSetState = .setStateStore) :
    raceRun message (List.replicate 11 Ctx.setState) r =
      { r with pcSetState := .done, mem := r.mem.SetState .READY message } := by
  obtain ⟨pa, pb, ⟨st, p, sm, em, w, cl, ws, cs⟩⟩ := r
  simp only at hpc
  subst hpc
  cases w <;> cases cl <;> cases ws <;>
    simp [raceRun, raceStep, pcStep, List.replicate, LoadingManager.SetState,
      LoadingManager.SetProgress, LoadingManager.ShowWindowWhenReady, LoadingManager.GetState]

/-- The nine steps of the `OnContentLoaded` context, run without interruption,
are the call `OnContentLoaded()`. -/
theorem onContent_steps (message : Str) (r : Race) (hpc : r.pcOnContent = .contentStore) :
    raceRun message (List.replicate 9 Ctx.onContent) r =
      { r with pcOnContent := .done, mem := r.mem.OnContentLoaded } := by
  obtain ⟨pa, pb, ⟨st, p, sm, em, w, cl, ws, cs⟩⟩ := r
  simp only at hpc
  subst hpc
  cases w <;> cases st <;> cases ws <;>
    simp [raceRun, raceStep, pcStep, List.replicate, LoadingManager.OnContentLoaded,
      LoadingManager.ShowWindowWhenReady, LoadingManager.GetState]

/-- Claim C19 fails on the code: with window 1 recorded, in the interleaving
`racySchedule` the `SetState(READY)` context loads `content_loaded_ == true` and
`window_shown_ == false`, the `OnContentLoaded()` context loads
`state == READY` and `window_shown_ == false`, both pass the three tests of
`ShowWindowWhenReady`, and both call `CenterWindow` and `Show` before storing
`window_shown_ = true`: `Show` is executed twice. -/
theorem c19_race_shows_twice :
    (raceRun [] racySchedule
      (Race.start (LoadingManager.init.SetWindow (some 1)))).mem.showsExecuted = 2 ∧
    (raceRun [] racySchedule
      (Race.start (LoadingManager.init.SetWindow (some 1)))).mem.calls =
      [WindowCall.CenterWindow 1 1200 800, WindowCall.Show 1,
        WindowCall.CenterWindow 1 1200 800, WindowCall.Show 1] ∧
    (raceRun [] racySchedule
      (Race.start (LoadingManager.init.SetWindow (some 1)))).pcSetState = Pc.done ∧
    (raceRun [] racySchedule
      (Race.start (LoadingManager.init.SetWindow (some 1)))).pcOnContent = Pc.done ∧
    racySchedule.count Ctx.setState = 11 ∧ racySchedule.count Ctx.onContent = 9 := by
  decide

/-! ## Path extraction -/

/-- On an initialized store, with the mutex free, the second part of `Create`
returns. -/
theorem CreateFrom_returns (app : WebApp) (path : Str) (g : Globals)
    (hfree : g.g_resourceMutex = false) (hinit : g.g_resourcesInitialized = true) :
    ∃ res, CreateFrom app path g = .ok res := by
  by_cases hmiss : ∀ r, g.g_preloadedResources.lookup path = some r → r.loaded = false
  · rw [CreateFrom_miss app path g hfree hinit hmiss]
    split <;> exact ⟨_, rfl⟩
  · push_neg at hmiss
    obtain ⟨r, hl, hr⟩ := hmiss
    have hr2 : r.loaded = true := by simpa using hr
    unfold CreateFrom
    rw [get_of_initialized app path g hfree hinit]
    simp only [hl, hr2, if_true, bind, Except.bind, pure, Except.pure]
    cases CreateResourceReader r.data <;> exact ⟨_, rfl⟩

/-- The only way in which the second part of `Create` fails to return is a
second lock of the held mutex. -/
theorem CreateFrom_fault (app : WebApp) (path : Str) (g : Globals) (e : Fault)
    (h : CreateFrom app path g = .error e) : e = .relock := by
  cases hmu : g.g_resourceMutex with
  | true =>
    simp [CreateFrom, GetPreloadedResource, lockGuard, hmu, bind, Except.bind] at h
    exact h.symm
  | false =>
    cases hini : g.g_resourcesInitialized with
    | false =>
      simp [CreateFrom, GetPreloadedResource, InitializePreloadedResources, lockGuard, hmu,
        hini, bind, Except.bind] at h
      exact h.symm
    | true =>
      obtain ⟨res, hres⟩ := CreateFrom_returns app path g hmu hini
      rw [hres] at h
      exact absurd h (by simp)

/-- Claim C21: the string `miko://app` has 10 characters, and for every URL
that passes the test of `Create` (`url.find("miko://app")` is 0) the URL has at
least 10 characters, `url.substr(10)` does not throw, and the URL is
`miko://app` followed by the extracted path; so `Create` never ends in
`out_of_range`, whatever the URL, the embedded document and the store. -/
theorem c21_substr_in_range (url : Str) (hcheck : find appUrl url = some 0) :
    appUrl.length = 10 ∧
    10 ≤ url.length ∧
    substr url 10 = .ok (url.drop 10) ∧
    url = appUrl ++ url.drop 10 ∧
    ∀ (app : WebApp) (g : Globals), Create app url g ≠ .error Fault.out_of_range := by
  have hlen : appUrl.length = 10 := by decide
  obtain ⟨rest, hrest⟩ := (find_eq_zero_iff appUrl url).mp hcheck
  subst hrest
  have hdrop : (appUrl ++ rest).drop 10 = rest := by
    rw [← hlen]
    exact List.drop_left _ _
  refine ⟨hlen, ?_, ?_, ?_, ?_⟩
  · rw [List.length_append, hlen]
    omega
  · rw [hdrop]
    exact substr_appUrl rest
  · rw [hdrop]
  · intro app g h
    rw [Create_eq_CreateFrom] at h
    exact absurd (CreateFrom_fault app indexPath g _ h) (by decide)

/-- Claim C21 at concrete URLs: the bare `miko://app`, whose extracted path is
empty, and `miko://app/anything.css`. -/
theorem c21_substr_in_range_witness :
    (10 ≤ "miko://app".toList.length ∧
      substr "miko://app".toList 10 = .ok ("miko://app".toList.drop 10) ∧
      "miko://app".toList = appUrl ++ "miko://app".toList.drop 10) ∧
    (substr "miko://app/anything.css".toList 10
        = .ok ("miko://app/anything.css".toList.drop 10) ∧
      "miko://app/anything.css".toList = appUrl ++ "miko://app/anything.css".toList.drop 10 ∧
      Create demoApp "miko://app/anything.css".toList Globals.init
        ≠ .error Fault.out_of_range) :=
  ⟨⟨(c21_substr_in_range "miko://app".toList (by decide)).2.1,
      (c21_substr_in_range "miko://app".toList (by decide)).2.2.1,
      (c21_substr_in_range "miko://app".toList (by decide)).2.2.2.1⟩,
    ⟨(c21_substr_in_range "miko://app/anything.css".toList (by decide)).2.2.1,
      (c21_substr_in_range "miko://app/anything.css".toList (by decide)).2.2.2.1,
      (c21_substr_in_range "miko://app/anything.css".toList (by decide)).2.2.2.2
        demoApp Globals.init⟩⟩

end CefQuickstart
